import Mathlib

/-!
# Verification of the zoho-notebook-to-obsidian conversion core

A shallow embedding, in Lean 4, of the conversion and sanitization engine of
the `zoho-notebook-to-obsidian` repository, together with proofs and refutations
of the specification claims about it.

JavaScript strings are modelled as `List Nat` of UTF-16 code units.  Pure string
functions of the source (`toFolderName`, `sanitizeFilename`, `escapeYaml`,
`normalizeFilename`) become Lean functions over such lists; the recursive
tree walker of `convert.js` becomes a fuel-indexed mutual recursion over an
inductive tree type (the fuel is a termination device only: the conversion
entry point supplies fuel strictly larger than any call chain the walker can
produce on the given tree, so the fuel never runs out and the Lean functions
agree with the JavaScript semantics).

Modelling notes, applying throughout:
* `String.prototype.toLowerCase` / `toUpperCase` are modelled on the ASCII
  range only.  No non-ASCII code unit case-maps to any of the characters the
  proofs below are sensitive to (`.`, `/`, the reserved device-name letters
  compared under the regexes involved are matched by the non-Unicode-mode
  canonicalisation rule, which never maps a non-ASCII unit to an ASCII one),
  so this does not affect any statement below.
* Comment nodes of `htmlparser2` trees are omitted from the node type: every
  branch of the source returns the empty string for them and every
  "meaningful child" filter discards them.
-/

set_option maxRecDepth 8000

namespace Zoho

/-- UTF-16 code units of an ASCII Lean string literal (used for the many
string constants of the source; for ASCII text, code points and UTF-16 units
coincide). -/
def uts (s : String) : List Nat := s.data.map Char.toNat

/-- The JavaScript `\s` / `String.prototype.trim` character class:
WhiteSpace ∪ LineTerminator of the ECMAScript specification. -/
def jsWhiteB (c : Nat) : Bool :=
  c = 9 ∨ c = 10 ∨ c = 11 ∨ c = 12 ∨ c = 13 ∨ c = 32 ∨ c = 0xa0 ∨ c = 0x1680 ∨
  (0x2000 ≤ c ∧ c ≤ 0x200a) ∨ c = 0x2028 ∨ c = 0x2029 ∨ c = 0x202f ∨
  c = 0x205f ∨ c = 0x3000 ∨ c = 0xfeff

/-- `String.prototype.trimStart`. -/
def jsTrimStart (l : List Nat) : List Nat := l.dropWhile jsWhiteB

/-- `String.prototype.trimEnd`. -/
def jsTrimEnd (l : List Nat) : List Nat := (l.reverse.dropWhile jsWhiteB).reverse

/-- `String.prototype.trim`. -/
def jsTrim (l : List Nat) : List Nat := jsTrimEnd (jsTrimStart l)

/-- `filename.replace(/ /g, ' ').replace(/ /g, ' ')`: the
`normalizeFilename` helper of `utils.js`, also the narrow-no-break-space
normalisation step reused at the start of `toFolderName`, `sanitizeFilename`
and on text nodes inside the walker. -/
def normSpace (l : List Nat) : List Nat :=
  l.map fun c => if c = 0x202f ∨ c = 0xa0 then 32 else c

/-- ASCII-range model of `String.prototype.toLowerCase` (see header note). -/
def asciiLower (c : Nat) : Nat := if 65 ≤ c ∧ c ≤ 90 then c + 32 else c

/-- ASCII-range model of `String.prototype.toUpperCase` (see header note). -/
def asciiUpper (c : Nat) : Nat := if 97 ≤ c ∧ c ≤ 122 then c - 32 else c

def lowerL (l : List Nat) : List Nat := l.map asciiLower

/-- Substring containment, `String.prototype.includes`. -/
def containsSub (l pat : List Nat) : Bool :=
  match l with
  | [] => List.isPrefixOf pat []
  | _ :: rest => List.isPrefixOf pat l || containsSub rest pat

/-- The `ILLEGAL_CHARS` class `[/\\:*?"<>|]` of `names.js`. -/
def isIllegalChar (c : Nat) : Bool :=
  c = 47 ∨ c = 92 ∨ c = 58 ∨ c = 42 ∨ c = 63 ∨ c = 34 ∨ c = 60 ∨ c = 62 ∨ c = 124

/-- `.replace(ILLEGAL_CHARS, '')`. -/
def stripIllegal (l : List Nat) : List Nat := l.filter fun c => ¬ isIllegalChar c

/-- `.replace(/\.+/g, '')` — removing every maximal run of dots removes every
dot. -/
def stripDots (l : List Nat) : List Nat := l.filter fun c => c ≠ 46

/-- The whitespace-run collapsing replace of `toFolderName`: each maximal run
of JS whitespace becomes one hyphen. -/
def collapseWs : List Nat → List Nat
  | [] => []
  | c :: rest =>
    if jsWhiteB c then 45 :: collapseWs (rest.dropWhile jsWhiteB)
    else c :: collapseWs rest
termination_by l => l.length
decreasing_by
  all_goals simp only [List.length_cons]
  · exact Nat.lt_succ_of_le ((List.dropWhile_sublist _).length_le)
  · exact Nat.lt_succ_self _

/-- The hyphen-run collapsing replace of `toFolderName`. -/
def collapseHyphens : List Nat → List Nat
  | [] => []
  | c :: rest =>
    if c = 45 then 45 :: collapseHyphens (rest.dropWhile (· = 45))
    else c :: collapseHyphens rest
termination_by l => l.length
decreasing_by
  all_goals simp only [List.length_cons]
  · exact Nat.lt_succ_of_le ((List.dropWhile_sublist _).length_le)
  · exact Nat.lt_succ_self _

/-- The edge-hyphen trimming replace of `toFolderName`: one leading and one
trailing hyphen are removed (the two alternatives of the anchored pattern
each match at most once). -/
def trimEdgeHyphens (l : List Nat) : List Nat :=
  let l1 := if l.head? = some 45 then l.tail else l
  if l1.getLast? = some 45 then l1.dropLast else l1

def uncategorized : List Nat := uts "uncategorized"

/-- `toFolderName` of `node-helpers.js` (the current revision, with the
narrow-no-break-space folding and the dot-stripping traversal guard; the
stale pre-1.1.0 copy at the top of `names.js` lacks the dot stripping and is
superseded — the repository's own security tests assert the behaviour
embedded here). -/
def toFolderName (notebook : List Nat) : List Nat :=
  let r := trimEdgeHyphens (collapseHyphens (collapseWs
    (stripDots (stripIllegal (lowerL (normSpace notebook))))))
  if r = [] then uncategorized else r

/-! ### `sanitizeFilename` (node-helpers.js) -/

/-- The control-character strip `[\x00-\x1F\x7F]` of `sanitizeFilename`. -/
def stripCtl (l : List Nat) : List Nat := l.filter fun c => ¬ (c ≤ 0x1F ∨ c = 0x7F)

/-- The C1 control strip `[\u0080-\u009F]`. -/
def stripC1 (l : List Nat) : List Nat := l.filter fun c => ¬ (0x80 ≤ c ∧ c ≤ 0x9F)

/-- `[  ]` (line / paragraph separator) to space. -/
def sepToSpace (l : List Nat) : List Nat :=
  l.map fun c => if c = 0x2028 ∨ c = 0x2029 then 32 else c

/-- High surrogate range of UTF-16. -/
def isHigh (c : Nat) : Bool := 0xD800 ≤ c ∧ c ≤ 0xDBFF

/-- Low surrogate range of UTF-16. -/
def isLow (c : Nat) : Bool := 0xDC00 ≤ c ∧ c ≤ 0xDFFF

/-- `Buffer.byteLength(name, 'utf8')` over UTF-16 code units: a surrogate
pair encodes in 4 bytes, an unpaired surrogate is replaced by U+FFFD
(3 bytes), otherwise the usual 1/2/3-byte ranges apply. -/
def utf8Len : List Nat → Nat
  | [] => 0
  | [c] => if c < 0x80 then 1 else if c < 0x800 then 2 else 3
  | c :: d :: rest =>
    if c < 0x80 then 1 + utf8Len (d :: rest)
    else if c < 0x800 then 2 + utf8Len (d :: rest)
    else if isHigh c then
      if isLow d then 4 + utf8Len rest else 3 + utf8Len (d :: rest)
    else 3 + utf8Len (d :: rest)

/-- The `(\.|$)` tail of the `WINDOWS_RESERVED` pattern. -/
def dotOrEnd : List Nat → Bool
  | [] => true
  | c :: _ => c = 46

/-- The `WINDOWS_RESERVED` test
`(CON|PRN|AUX|NUL|COM[1-9]|LPT[1-9])(\.|$)` with the `i` flag
(case-insensitive matching canonicalises through `toUpperCase`; in
non-Unicode mode no non-ASCII unit canonicalises to an ASCII letter, so the
ASCII model is exact). -/
def isReserved (s : List Nat) : Bool :=
  match s.map asciiUpper with
  | 67 :: 79 :: 78 :: rest => dotOrEnd rest
  | 80 :: 82 :: 78 :: rest => dotOrEnd rest
  | 65 :: 85 :: 88 :: rest => dotOrEnd rest
  | 78 :: 85 :: 76 :: rest => dotOrEnd rest
  | 67 :: 79 :: 77 :: d :: rest => decide (49 ≤ d ∧ d ≤ 57) && dotOrEnd rest
  | 76 :: 80 :: 84 :: d :: rest => decide (49 ≤ d ∧ d ≤ 57) && dotOrEnd rest
  | _ => false

def utsUntitled : List Nat := uts "Untitled"

/-- The cleaning pipeline of `sanitizeFilename` up to and including `.trim()`. -/
def cleanedName (t : List Nat) : List Nat :=
  jsTrim (stripIllegal (sepToSpace (stripC1 (stripCtl (normSpace t)))))

/-- Fuel-indexed body of the truncation loop; each iteration drops the final
code unit, so `s.length` iterations always suffice to leave the loop. -/
def truncGo : Nat → List Nat → List Nat
  | 0, s => s
  | n + 1, s => if 200 < utf8Len s then truncGo n s.dropLast else s

/-- The `while (Buffer.byteLength(name) > MAX) name = name.slice(0, -1)` loop. -/
def truncLoop (s : List Nat) : List Nat := truncGo s.length s

/-- The lone-high-surrogate fix after truncation. -/
def surrFix (s : List Nat) : List Nat :=
  match s.getLast? with
  | some c => if isHigh c then s.dropLast else s
  | none => s

/-- The `name` variable of `sanitizeFilename` after the
`... .trim() || 'Untitled'` assignment. -/
def nameAfterFallback (t : List Nat) : List Nat :=
  if cleanedName t = [] then utsUntitled else cleanedName t

/-- The `name` variable after the `WINDOWS_RESERVED` underscore-prefix step. -/
def nameAfterReserved (t : List Nat) : List Nat :=
  if isReserved (nameAfterFallback t) then 95 :: nameAfterFallback t
  else nameAfterFallback t

/-- The `name` variable after the 200-byte cap (truncation loop, lone
high-surrogate fix, `trimEnd`), entered only when the byte length exceeds the
budget. -/
def nameAfterCap (t : List Nat) : List Nat :=
  if 200 < utf8Len (nameAfterReserved t) then
    jsTrimEnd (surrFix (truncLoop (nameAfterReserved t)))
  else nameAfterReserved t

/-- `sanitizeFilename` of `node-helpers.js`: space folding, control and
illegal character stripping, trim, `Untitled` fallback, reserved-device-name
underscore prefix, 200-byte cap with surrogate fix and trailing trim, and the
final `return name || 'Untitled'` fallback. -/
def sanitizeFilename (t : List Nat) : List Nat :=
  if nameAfterCap t = [] then utsUntitled else nameAfterCap t

/-- The idempotence counterexample input: `"NUL"`, 197 spaces, then `"X"`
(201 bytes).  The reserved-name test runs before truncation and sees
`"NUL "...`, which does not match `NUL(\.|$)`; the truncation then removes
`"X"` and the trailing `trimEnd` strips the spaces, so the first pass returns
the reserved name `"NUL"`, which a second pass prefixes to `"_NUL"`. -/
def nulSpoofInput : List Nat := uts "NUL" ++ List.replicate 197 32 ++ [88]

/-- Well-formed UTF-16: every high surrogate is immediately followed by a low
surrogate and no low surrogate appears unpaired. -/
def wf16 : List Nat → Bool
  | [] => true
  | [c] => if isHigh c then false else if isLow c then false else true
  | c :: d :: rest =>
    if isHigh c then isLow d && wf16 rest
    else if isLow c then false
    else wf16 (d :: rest)

/-! ### `escapeYaml` (names.js) -/

/-- A global regex replace whose pattern matches single characters: each
character maps to a replacement string. -/
def mapJoin (f : Nat → List Nat) (l : List Nat) : List Nat := (l.map f).flatten

/-- `.replace(x, '\\\\')` on backslashes: `\` becomes `\\`. -/
def repBackslash (l : List Nat) : List Nat :=
  mapJoin (fun c => if c = 92 then [92, 92] else [c]) l

/-- `"` becomes `\"`. -/
def repQuote (l : List Nat) : List Nat :=
  mapJoin (fun c => if c = 34 then [92, 34] else [c]) l

/-- `.replace(x00, '')`: null bytes stripped. -/
def stripNull (l : List Nat) : List Nat := l.filter fun c => c ≠ 0

/-- The C0-control strip of `escapeYaml`: `[\x01-\x08\x0B\x0C\x0E-\x1F\x7F]`.
Note that TAB (0x09), LF (0x0A) and CR (0x0D) are *not* in this class. -/
def stripYamlCtl (l : List Nat) : List Nat :=
  l.filter fun c =>
    ¬ ((1 ≤ c ∧ c ≤ 8) ∨ c = 0xB ∨ c = 0xC ∨ (0xE ≤ c ∧ c ≤ 0x1F) ∨ c = 0x7F)

/-- NEL (U+0085) becomes the two characters `\` `n`. -/
def repNEL (l : List Nat) : List Nat :=
  mapJoin (fun c => if c = 0x85 then [92, 110] else [c]) l

/-- LS (U+2028) becomes `\` `n`. -/
def repLS (l : List Nat) : List Nat :=
  mapJoin (fun c => if c = 0x2028 then [92, 110] else [c]) l

/-- PS (U+2029) becomes `\` `n`. -/
def repPS (l : List Nat) : List Nat :=
  mapJoin (fun c => if c = 0x2029 then [92, 110] else [c]) l

/-- LF becomes `\` `n`. -/
def repLF (l : List Nat) : List Nat :=
  mapJoin (fun c => if c = 10 then [92, 110] else [c]) l

/-- CR becomes `\` `r`. -/
def repCR (l : List Nat) : List Nat :=
  mapJoin (fun c => if c = 13 then [92, 114] else [c]) l

/-- `escapeYaml` of `names.js`: the nine global replaces applied in source
order (backslash, quote, null strip, C0 strip, NEL, LS, PS, LF, CR). -/
def escapeYaml (l : List Nat) : List Nat :=
  repCR (repLF (repPS (repLS (repNEL (stripYamlCtl (stripNull (repQuote
    (repBackslash l))))))))

/-- A character that must never appear raw between the double quotes of the
frontmatter: an unescaped quote, a C0 control other than TAB, DEL, or a raw
NEL/LS/PS line terminator. -/
def yamlBad (c : Nat) : Bool :=
  c = 34 ∨ (c ≤ 0x1F ∧ c ≠ 9) ∨ c = 0x7F ∨ c = 0x85 ∨ c = 0x2028 ∨ c = 0x2029

/-- A scanner/unescaper for the double-quoted frontmatter context: it fails
(`none`) on any raw `yamlBad` character or a truncated/unknown backslash
escape; otherwise it undoes the backslash escapes.  `some` output therefore
certifies that the escaped value is safe between two double quotes. -/
def yamlUnescape : List Nat → Option (List Nat)
  | [] => some []
  | [c] =>
    if c = 92 then none
    else if yamlBad c then none
    else some [c]
  | c :: e :: rest =>
    if c = 92 then
      if e = 92 then (yamlUnescape rest).map (92 :: ·)
      else if e = 34 then (yamlUnescape rest).map (34 :: ·)
      else if e = 110 then (yamlUnescape rest).map (10 :: ·)
      else if e = 114 then (yamlUnescape rest).map (13 :: ·)
      else none
    else if yamlBad c then none
    else (yamlUnescape (e :: rest)).map (c :: ·)

/-- The text `escapeYaml` preserves: the original minus the stripped
controls (NUL, the C0 subset, DEL), with NEL/LS/PS turned into LF. -/
def yamlVisible (l : List Nat) : List Nat :=
  mapJoin (fun c =>
    if c = 0 ∨ (1 ≤ c ∧ c ≤ 8) ∨ c = 0xB ∨ c = 0xC ∨ (0xE ≤ c ∧ c ≤ 0x1F) ∨
        c = 0x7F then []
    else if c = 0x85 ∨ c = 0x2028 ∨ c = 0x2029 then [10]
    else [c]) l

/-! ### Path resolution and the copy guard (writer.js) -/

/-- Split a path string at `/` separators. -/
def splitSeg : List Nat → List (List Nat)
  | [] => [[]]
  | c :: rest =>
    if c = 47 then [] :: splitSeg rest
    else
      match splitSeg rest with
      | s :: ss => (c :: s) :: ss
      | [] => [[c]]

/-- POSIX path normalisation over segments: empty and `.` segments vanish,
`..` pops (and is dropped at the root). -/
def normSegs (segs : List (List Nat)) : List (List Nat) :=
  segs.foldl
    (fun acc seg =>
      if seg = [] ∨ seg = [46] then acc
      else if seg = [46, 46] then acc.dropLast
      else acc ++ [seg])
    []

/-- Render an absolute path from normalised segments (no trailing separator;
the root renders as `/`). -/
def renderAbs (segs : List (List Nat)) : List Nat :=
  if segs = [] then [47] else (segs.map (fun s => 47 :: s)).flatten

/-- `path.resolve(base)` for an absolute `base` (the CLI always passes
absolute base directories, so the working-directory fallback never fires). -/
def resolve1 (base : List Nat) : List Nat := renderAbs (normSegs (splitSeg base))

/-- `path.resolve(base, rel)` for an absolute `base`: an absolute `rel`
wins, otherwise the segment lists concatenate; the result is normalised. -/
def resolve2 (base rel : List Nat) : List Nat :=
  if rel.head? = some 47 then renderAbs (normSegs (splitSeg rel))
  else renderAbs (normSegs (splitSeg base ++ splitSeg rel))

/-- `safeCopy` of `writer.js`.  The filesystem is abstracted to the
`existsSrc` oracle standing for `fs.existsSync(src)` — which *follows*
symbolic links, exactly as the source call does.  `safeCopy` consults nothing
else about the source entry (there is no `lstat` call in the source), so its
decision cannot depend on whether the entry is a symlink.  The returned
boolean is `true` exactly when the copy (`fs.copyFileSync`) is performed. -/
def safeCopy (srcBase filename destBase destFilename : List Nat)
    (existsSrc : Bool) : Bool :=
  let src := resolve2 srcBase filename
  let dest := resolve2 destBase destFilename
  if ¬ List.isPrefixOf (resolve1 srcBase ++ [47]) src then false
  else if ¬ List.isPrefixOf (resolve1 destBase ++ [47]) dest then false
  else existsSrc

/-! ### Content tree (htmlparser2 nodes, node-helpers.js) -/

/-- A parsed markup node: a text node carrying its raw data, or an element
with tag name, attributes (name/value pairs, first occurrence wins) and
ordered children. -/
inductive CNode where
  | text : List Nat → CNode
  | elem : List Nat → List (List Nat × List Nat) → List CNode → CNode

def CNode.kids : CNode → List CNode
  | .text _ => []
  | .elem _ _ cs => cs

/-- `node.tagName?.toLowerCase()`: `none` for text nodes. -/
def CNode.tagL : CNode → Option (List Nat)
  | .text _ => none
  | .elem name _ _ => some (lowerL name)

/-- `getAttr` of node-helpers.js: `node.attribs?.[key]`. -/
def getAttrN (n : CNode) (key : List Nat) : Option (List Nat) :=
  match n with
  | .text _ => none
  | .elem _ attrs _ => List.lookup key attrs

mutual
/-- `getText` of node-helpers.js: concatenate all descendant text data. -/
def getText : CNode → List Nat
  | .text d => d
  | .elem _ _ cs => getTextList cs
def getTextList : List CNode → List Nat
  | [] => []
  | c :: rest => getText c ++ getTextList rest
end

mutual
/-- Total number of nodes in a tree (used to size the walker's fuel). -/
def cnSize : CNode → Nat
  | .text _ => 1
  | .elem _ _ cs => 1 + cnSizeList cs
def cnSizeList : List CNode → Nat
  | [] => 0
  | c :: rest => cnSize c + cnSizeList rest
end

mutual
/-- `findByTag` of node-helpers.js.  The source iterates an explicit stack
with `shift`/`unshift(…children)`, which visits all descendants in preorder;
this is that preorder traversal written structurally. -/
def findByTag : CNode → List Nat → List CNode
  | .text _, _ => []
  | .elem name attrs cs, t =>
    (if lowerL name = t then [CNode.elem name attrs cs] else []) ++
      findByTagList cs t
def findByTagList : List CNode → List Nat → List CNode
  | [], _ => []
  | c :: rest, t => findByTag c t ++ findByTagList rest t
end

mutual
/-- Number of checkbox items in a tree, in either source shape
(`input[type=checkbox]` markers or `checkbox` elements). -/
def countCheckbox : CNode → Nat
  | .text _ => 0
  | .elem name attrs cs =>
    (if (lowerL name = uts "input" ∧
        List.lookup (uts "type") attrs = some (uts "checkbox")) ∨
        lowerL name = uts "checkbox" then 1 else 0) + countCheckboxList cs
def countCheckboxList : List CNode → Nat
  | [] => 0
  | c :: rest => countCheckbox c + countCheckboxList rest
end

/-! ### Walker helpers (convert.js) -/

/-- The walk context: current list nesting depth and current list kind
(`none`, `'ul'` or `'ol'`). -/
structure Ctx where
  listDepth : Nat
  listType : Option (List Nat)
deriving DecidableEq

/-- The caller-supplied note-id to title lookup. -/
abbrev IdMap := List (List Nat × List Nat)

/-- `isBlockElement` of convert.js. -/
def isBlockElement (tag : List Nat) : Bool :=
  [uts "div", uts "p", uts "blockquote", uts "pre", uts "table", uts "ul",
    uts "ol", uts "li", uts "hr", uts "h1", uts "h2", uts "h3", uts "h4",
    uts "h5", uts "h6"].contains tag

/-- A "meaningful" sibling: `c.type === 'tag' || (c.type === 'text' &&
c.data?.trim())`. -/
def meaningful : CNode → Bool
  | .elem _ _ _ => true
  | .text d => jsTrim d ≠ []

def isSpanTag : CNode → Bool
  | .elem n _ _ => lowerL n = uts "span"
  | .text _ => false

/-- An `input` element with `type="checkbox"`. -/
def isCheckboxInput : CNode → Bool
  | .elem n attrs _ =>
    lowerL n = uts "input" ∧ List.lookup (uts "type") attrs = some (uts "checkbox")
  | .text _ => false

/-- A checkbox in either source shape (used by `handleDiv`). -/
def isCheckboxNode : CNode → Bool
  | .elem n attrs _ =>
    (lowerL n = uts "input" ∧
      List.lookup (uts "type") attrs = some (uts "checkbox")) ∨
    lowerL n = uts "checkbox"
  | .text _ => false

def isBlockChild : CNode → Bool
  | .elem n _ _ => isBlockElement (lowerL n)
  | .text _ => false

/-- The `<div><b><br></b></div>` empty-bold-spacer test of `handleDiv`. -/
def isEmptyBoldSpacer : List CNode → Bool
  | [CNode.elem n _ ics] =>
    decide (lowerL n = uts "b" ∨ lowerL n = uts "strong") &&
    (match ics.filter meaningful with
     | [] => true
     | [CNode.elem n2 _ _] => decide (lowerL n2 = uts "br")
     | _ => false)
  | _ => false

/-- `normalizeFilename` of utils.js (same two space replaces). -/
def normalizeFilename (l : List Nat) : List Nat := normSpace l

/-- The checkbox label read from `node.next` by the `input` branch: a `span`
sibling contributes its `getText(..).trim()`, a text sibling its trimmed
data, anything else the empty string. -/
def checkboxLabel : List CNode → List Nat
  | CNode.elem n _ cs2 :: _ =>
    if lowerL n = uts "span" then jsTrim (getTextList cs2) else []
  | CNode.text d :: _ => jsTrim d
  | [] => []

/-- `^h[1-6]$`. -/
def headingLevel : List Nat → Option Nat
  | [104, d] => if 49 ≤ d ∧ d ≤ 54 then some (d - 48) else none
  | _ => none

/-- `\w` of the note-id capture. -/
def isWordChar (c : Nat) : Bool :=
  (48 ≤ c ∧ c ≤ 57) ∨ (65 ≤ c ∧ c ≤ 90) ∨ (97 ≤ c ∧ c ≤ 122) ∨ c = 95

/-- `href.match(x)` for the pattern `zohonotebook:[/][/]notes[/](\w+)`:
first position where the literal is followed by at least one word
character, returning the maximal word-character run. -/
def extractNoteId : List Nat → Option (List Nat)
  | [] => none
  | c :: rest =>
    if List.isPrefixOf (uts "zohonotebook://notes/") (c :: rest) then
      let w := ((c :: rest).drop 21).takeWhile isWordChar
      if w ≠ [] then some w else extractNoteId rest
    else extractNoteId rest

/-- The HTML-comment hardening of unresolved links: each occurrence of the
comment-closing sequence gets a zero-width space before its final angle
bracket (scanned left to right, non-overlapping, like the global regex). -/
def replaceArrow : List Nat → List Nat
  | 45 :: 45 :: 62 :: rest => 45 :: 45 :: 8203 :: 62 :: replaceArrow rest
  | c :: rest => c :: replaceArrow rest
  | [] => []

/-- `.replace(x, '\\|')` on table cell text: escape literal pipes. -/
def escPipes (l : List Nat) : List Nat :=
  mapJoin (fun c => if c = 124 then [92, 124] else [c]) l

/-- Split a string at LF (the `inner.split(. n .)` of the blockquote
branch); splitting the empty string yields one empty piece. -/
def splitNL : List Nat → List (List Nat)
  | [] => [[]]
  | c :: rest =>
    if c = 10 then [] :: splitNL rest
    else
      match splitNL rest with
      | s :: ss => (c :: s) :: ss
      | [] => [[c]]

/-- `handleZnresource` of convert.js (inline resource): all three branches
embed the normalised relative path. -/
def handleZnresource (attrs : List (List Nat × List Nat)) : List Nat :=
  let relativePath := (List.lookup (uts "relative-path") attrs).getD []
  let rType := (List.lookup (uts "type") attrs).getD []
  let consumers := (List.lookup (uts "consumers") attrs).getD []
  let cleanPath := normalizeFilename relativePath
  if containsSub consumers (uts "com.zoho.notebook.file") then
    uts "![[attachments/" ++ cleanPath ++ uts "]]"
  else if List.isPrefixOf (uts "audio/") rType then
    uts "![[attachments/" ++ cleanPath ++ uts "]]"
  else uts "![[attachments/" ++ cleanPath ++ uts "]]"

/-- The audio-card advisory line. -/
def audioAdvisory : List Nat :=
  uts "> **Note**: Audio file exported without extension. You may need to rename it (likely .m4a or .webm)." ++ [10]

/-- `handleZnresourceCard` of convert.js (card-level resource). -/
def handleZnresourceCard (attrs : List (List Nat × List Nat))
    (noteType : Option (List Nat)) : List Nat :=
  let relativePath := (List.lookup (uts "relative-path") attrs).getD []
  let rType := (List.lookup (uts "type") attrs).getD []
  let consumers := (List.lookup (uts "consumers") attrs).getD []
  let cleanPath := normalizeFilename relativePath
  if List.isPrefixOf (uts "audio/") rType ∨ noteType = some (uts "note/audio") then
    uts "Attached audio: ![[attachments/" ++ cleanPath ++ uts "]]" ++ [10, 10] ++
      audioAdvisory
  else if containsSub consumers (uts "com.zoho.notebook.file") ∨
      noteType = some (uts "note/file") then
    uts "Attached file: ![[attachments/" ++ cleanPath ++ uts "]]" ++ [10]
  else uts "![[attachments/" ++ cleanPath ++ uts "]]" ++ [10]

/-- A row rendered by `handleTable`: padded to the column count, joined with
pipes, newline-terminated. -/
def renderRow (colCount : Nat) (row : List (List Nat)) : List Nat :=
  let padded := row ++ List.replicate (colCount - row.length) []
  uts "| " ++ List.intercalate (uts " | ") padded ++ uts " |" ++ [10]

/-- The header-separator row (`row.map(() => '---')` of the padded first
row, so exactly `colCount` dashes-cells). -/
def sepRowOf (colCount : Nat) : List Nat :=
  uts "| " ++ List.intercalate (uts " | ")
    (List.replicate colCount (uts "---")) ++ uts " |" ++ [10]

/-- The row-rendering loop of `handleTable`: the separator is emitted exactly
once, immediately after the first row (`if (i === 0)`). -/
def renderRows (colCount : Nat) : List (List (List Nat)) → List Nat
  | [] => []
  | r :: rest =>
    renderRow colCount r ++ sepRowOf colCount ++
      (rest.map (renderRow colCount)).flatten

/-- The sibling sequence paired with each node's following siblings
(`node.next` chains), so the walker can model `children[i + 1]` and the
per-call `skipSet` positionally. -/
def withRest : List CNode → List (CNode × List CNode)
  | [] => []
  | c :: rest => (c, rest) :: withRest rest

/-- One iteration of the `walkChildren` loop, abstracted over the recursive
walk (already applied to parent tag and lookup).  State: accumulated output,
context, and whether the previous child was a checkbox `input` (so a `span`
here is the consumed label). -/
def sibsStep (walk : CNode → List CNode → Ctx → List Nat × Ctx)
    (acc : List Nat × Ctx × Bool) (p : CNode × List CNode) :
    List Nat × Ctx × Bool :=
  if acc.2.2 ∧ isSpanTag p.1 then (acc.1, acc.2.1, false)
  else
    let r := walk p.1 p.2 acc.2.1
    (acc.1 ++ r.1, r.2, isCheckboxInput p.1)

/-- One iteration of the mixed-content loop of `handleDiv`.  State:
flushed output, pending inline text, context. -/
def divStep (walk : CNode → List CNode → Ctx → List Nat × Ctx)
    (st : List Nat × List Nat × Ctx) (p : CNode × List CNode) :
    List Nat × List Nat × Ctx :=
  match p.1 with
  | .text d => (st.1, st.2.1 ++ normSpace d, st.2.2)
  | .elem n _ _ =>
    if isBlockElement (lowerL n) then
      let flushed :=
        if jsTrim st.2.1 ≠ [] then st.1 ++ jsTrim st.2.1 ++ [10, 10]
        else st.1
      let r := walk p.1 p.2 st.2.2
      (flushed ++ r.1, [], r.2)
    else
      let r := walk p.1 p.2 st.2.2
      (st.1, st.2.1 ++ r.1, r.2)

/-- One iteration of the `handleListItem` child loop.  State: item content,
accumulated sublist, context. -/
def liStep (walkN : CNode → List CNode → Ctx → List Nat × Ctx)
    (walkS : Option (List Nat) → List CNode → Ctx → List Nat × Ctx)
    (st : List Nat × List Nat × Ctx) (p : CNode × List CNode) :
    List Nat × List Nat × Ctx :=
  match p.1 with
  | .text d => (st.1 ++ normSpace d, st.2.1, st.2.2)
  | .elem n _ ccs =>
    let ctag := lowerL n
    if ctag = uts "ul" ∨ ctag = uts "ol" then
      let prevDepth := st.2.2.listDepth
      let prevType := st.2.2.listType
      let r := walkS (some ctag) ccs (Ctx.mk (prevDepth + 1) (some ctag))
      (st.1, st.2.1 ++ r.1, Ctx.mk prevDepth prevType)
    else if ctag = uts "div" then
      let r := walkS (some (uts "div")) ccs st.2.2
      (st.1 ++ jsTrim r.1, st.2.1, r.2)
    else
      let r := walkN p.1 p.2 st.2.2
      (st.1 ++ r.1, st.2.1, r.2)

/-- The direct `td`/`th` children of a row element
(`tr.children.filter(...)` of `handleTable`). -/
def cellsOf (tr : CNode) : List CNode :=
  tr.kids.filter fun c =>
    match c with
    | .elem n _ _ => decide (lowerL n = uts "td" ∨ lowerL n = uts "th")
    | .text _ => false

def rowStep (cells : List CNode → Ctx → List (List Nat) × Ctx)
    (st : List (List (List Nat)) × Ctx) (tr : CNode) :
    List (List (List Nat)) × Ctx :=
  let rc := cells (cellsOf tr) st.2
  (st.1 ++ [rc.1], rc.2)

/-- One iteration of the cell loop of `handleTable`. -/
def cellStep (walkS : Option (List Nat) → List CNode → Ctx → List Nat × Ctx)
    (st : List (List Nat) × Ctx) (cell : CNode) : List (List Nat) × Ctx :=
  let r := walkS cell.tagL cell.kids st.2
  (st.1 ++ [escPipes (jsTrim r.1)], r.2)

/-! ### The tree walker (convert.js) — fuel-indexed mutual recursion.

The fuel is a pure termination device: it decreases by exactly one on
every cross-function call and never inside a sibling loop, so any call
chain of length below the initial fuel behaves exactly like the
JavaScript recursion.  `convertBody` supplies `3 * cnSize + 9` fuel,
which exceeds the longest possible chain (at most three calls per tree
level).  Each function returns its output together with the walk context,
threading the context mutations of the source sequentially. -/

mutual

/-- `walkNode` of convert.js: dispatch on the (lowercased) tag name, in
source order.  `pTag` is `node.parent?.tagName?.toLowerCase()` and `after`
the following siblings (`node.next` chain). -/
def walkNodeF : Nat → Option (List Nat) → CNode → List CNode → Ctx → IdMap →
    (List Nat × Ctx)
  | 0, _, _, _, ctx, _ => ([], ctx)
  | fuel + 1, pTag, node, after, ctx, idMap =>
    match node with
    | .text d => (normSpace d, ctx)
    | .elem name attrs cs =>
      let tag := lowerL name
      if tag = uts "br" then
        -- a trailing <br> (no meaningful following sibling) emits nothing;
        -- both the consecutive-<br> branch and the default return one LF
        if (after.filter meaningful).isEmpty then ([], ctx) else ([10], ctx)
      else if tag = uts "hr" then (uts "---" ++ [10, 10], ctx)
      else if tag = uts "div" then handleDivF fuel attrs cs ctx idMap
      else if tag = uts "p" then
        let r := walkSibs fuel (some tag) cs ctx idMap
        let content := jsTrim r.1
        if content = [] then ([10], r.2) else (content ++ [10, 10], r.2)
      else if tag = uts "blockquote" then
        let r := walkSibs fuel (some tag) cs ctx idMap
        let inner := jsTrim r.1
        (List.intercalate [10] ((splitNL inner).map (fun ln => uts "> " ++ ln)) ++
          [10, 10], r.2)
      else if tag = uts "pre" then
        (List.replicate 3 96 ++ [10] ++ getText node ++ [10] ++
          List.replicate 3 96 ++ [10, 10], ctx)
      else if tag = uts "table" then handleTableF fuel node ctx idMap
      else if tag = uts "ul" ∨ tag = uts "ol" then
        let prevType := ctx.listType
        let prevDepth := ctx.listDepth
        let depth1 :=
          if pTag = some (uts "ul") ∨ pTag = some (uts "ol") then
            ctx.listDepth + 1
          else ctx.listDepth
        let r := walkSibs fuel (some tag) cs (Ctx.mk depth1 (some tag)) idMap
        let ctx2 := Ctx.mk prevDepth prevType
        if pTag ≠ some (uts "ul") ∧ pTag ≠ some (uts "ol") ∧
            pTag ≠ some (uts "li") then
          (r.1 ++ [10], ctx2)
        else (r.1, ctx2)
      else if tag = uts "li" then handleListItemF fuel cs ctx idMap
      else if tag = uts "strong" ∨ tag = uts "b" then
        let r := walkSibs fuel (some tag) cs ctx idMap
        let t := jsTrim r.1
        if t = [] then (r.1, r.2) else (uts "**" ++ t ++ uts "**", r.2)
      else if tag = uts "em" ∨ tag = uts "i" then
        let r := walkSibs fuel (some tag) cs ctx idMap
        let t := jsTrim r.1
        if t = [] then (r.1, r.2) else (uts "*" ++ t ++ uts "*", r.2)
      else if tag = uts "u" then
        let r := walkSibs fuel (some tag) cs ctx idMap
        let t := jsTrim r.1
        if t = [] then (r.1, r.2) else (uts "<u>" ++ t ++ uts "</u>", r.2)
      else if tag = uts "strike" ∨ tag = uts "s" ∨ tag = uts "del" then
        let r := walkSibs fuel (some tag) cs ctx idMap
        let t := jsTrim r.1
        if t = [] then (r.1, r.2) else (uts "~~" ++ t ++ uts "~~", r.2)
      else if tag = uts "span" then
        let cls := (List.lookup (uts "class") attrs).getD []
        if containsSub cls (uts "highlight") then
          let r := walkSibs fuel (some tag) cs ctx idMap
          let t := jsTrim r.1
          if t = [] then (r.1, r.2) else (uts "==" ++ t ++ uts "==", r.2)
        else walkSibs fuel (some tag) cs ctx idMap
      else if tag = uts "a" then handleLinkF fuel attrs cs ctx idMap
      else if tag = uts "img" then
        match List.lookup (uts "src") attrs with
        | some src =>
          if List.isPrefixOf (uts "http") src then
            (uts "![](" ++ src ++ uts ")", ctx)
          else (uts "![[attachments/" ++ normalizeFilename src ++ uts "]]", ctx)
        | none => ([], ctx)
      else if tag = uts "input" then
        if List.lookup (uts "type") attrs = some (uts "checkbox") then
          let checked := (List.lookup (uts "checked") attrs).isSome
          let labelText := checkboxLabel after
          ((if checked then uts "- [x] " else uts "- [ ] ") ++ labelText ++ [10],
            ctx)
        else ([], ctx)
      else if tag = uts "checkbox" then
        let checked :=
          List.lookup (uts "data-znote-checked") attrs = some (uts "true")
        let r := walkSibs fuel (some tag) cs ctx idMap
        let labelText := jsTrim r.1
        ((if checked then uts "- [x] " else uts "- [ ] ") ++ labelText ++ [10],
          r.2)
      else if tag = uts "znresource" then (handleZnresource attrs, ctx)
      else
        match headingLevel tag with
        | some level =>
          let r := walkSibs fuel (some tag) cs ctx idMap
          let inner := jsTrim r.1
          (List.replicate level 35 ++ [32] ++ inner ++ [10, 10], r.2)
        | none =>
          if tag = uts "code" then
            let r := walkSibs fuel (some tag) cs ctx idMap
            if jsTrim r.1 = [] then (r.1, r.2)
            else ([96] ++ r.1 ++ [96], r.2)
          else if tag = uts "content" then walkSibs fuel (some tag) cs ctx idMap
          else walkSibs fuel (some tag) cs ctx idMap

/-- `walkChildren` of convert.js: iterate the children, marking the `span`
that immediately follows an `input[type=checkbox]` as consumed (the
`skipSet` is created fresh per call and only ever holds `children[i+1]`, so
it is exactly this positional skip). -/
def walkSibs : Nat → Option (List Nat) → List CNode → Ctx → IdMap →
    (List Nat × Ctx)
  | 0, _, _, ctx, _ => ([], ctx)
  | fuel + 1, pTag, cs, ctx, idMap =>
    let fin := (withRest cs).foldl
      (sibsStep (fun c aft cx => walkNodeF fuel pTag c aft cx idMap))
      ([], ctx, false)
    (fin.1, fin.2.1)

/-- `handleDiv` of convert.js. -/
def handleDivF : Nat → List (List Nat × List Nat) → List CNode → Ctx → IdMap →
    (List Nat × Ctx)
  | 0, _, _, ctx, _ => ([], ctx)
  | fuel + 1, attrs, children, ctx, idMap =>
    let cls := (List.lookup (uts "class") attrs).getD []
    if containsSub cls (uts "checklist") then
      walkSibs fuel (some (uts "div")) children ctx idMap
    else
      let filtered := children.filter meaningful
      if filtered.isEmpty then ([10], ctx)
      else if (match filtered with
        | [CNode.elem n _ _] => decide (lowerL n = uts "br")
        | _ => false) then ([10], ctx)
      else if isEmptyBoldSpacer filtered then ([], ctx)
      else if filtered.any isCheckboxNode then
        walkSibs fuel (some (uts "div")) children ctx idMap
      else if ¬ filtered.any isBlockChild then
        let r := walkSibs fuel (some (uts "div")) children ctx idMap
        let content := jsTrim r.1
        if content = [] then ([10], r.2) else (content ++ [10, 10], r.2)
      else divLoop fuel children ctx idMap

/-- The mixed-content loop of `handleDiv`: text and inline children
accumulate in `pendingInline`, each block child first flushes the trimmed
pending text as a paragraph. -/
def divLoop : Nat → List CNode → Ctx → IdMap → (List Nat × Ctx)
  | 0, _, ctx, _ => ([], ctx)
  | fuel + 1, children, ctx, idMap =>
    let fin := (withRest children).foldl
      (divStep (fun c aft cx => walkNodeF fuel (some (uts "div")) c aft cx idMap))
      ([], [], ctx)
    (if jsTrim fin.2.1 ≠ [] then fin.1 ++ jsTrim fin.2.1 ++ [10, 10] else fin.1,
      fin.2.2)

/-- `handleListItem` of convert.js: nested list children render into
`sublist` with saved-and-restored depth/kind, `div` children unwrap, others
walk into `content`; the item line is indented four spaces per depth. -/
def handleListItemF : Nat → List CNode → Ctx → IdMap → (List Nat × Ctx)
  | 0, _, ctx, _ => ([], ctx)
  | fuel + 1, children, ctx, idMap =>
    let indent := List.replicate (4 * ctx.listDepth) 32
    let marker := if ctx.listType = some (uts "ol") then uts "1. " else uts "- "
    let fin := (withRest children).foldl
      (liStep (fun c aft cx => walkNodeF fuel (some (uts "li")) c aft cx idMap)
        (fun pt ccs cx => walkSibs fuel pt ccs cx idMap))
      ([], [], ctx)
    let content := jsTrim fin.1
    let line := indent ++ marker ++ content ++ [10]
    (if fin.2.1 = [] then line else line ++ fin.2.1, fin.2.2)

/-- `handleLink` of convert.js. -/
def handleLinkF : Nat → List (List Nat × List Nat) → List CNode → Ctx →
    IdMap → (List Nat × Ctx)
  | 0, _, _, ctx, _ => ([], ctx)
  | fuel + 1, attrs, children, ctx, idMap =>
    let href := (List.lookup (uts "href") attrs).getD []
    let cls := (List.lookup (uts "class") attrs).getD []
    let r := walkSibs fuel (some (uts "a")) children ctx idMap
    let text := jsTrim r.1
    if (containsSub cls (uts "editor-note-link") ∨
        containsSub cls (uts "rte-link")) ∧ text ≠ [] then
      (uts "[[" ++ text ++ uts "]]", r.2)
    else if List.isPrefixOf (uts "zohonotebook://") href then
      let resolved : Option (List Nat) :=
        match extractNoteId href with
        | some nid => List.lookup nid idMap
        | none => none
      match resolved with
      | some title =>
        if lowerL text = uts "link" then (uts "[[" ++ title ++ uts "]]", r.2)
        else (uts "[[" ++ title ++ uts "|" ++ text ++ uts "]]", r.2)
      | none =>
        if text ≠ [] ∧ lowerL text ≠ uts "link" then
          (uts "[[" ++ text ++ uts "]]", r.2)
        else
          (uts "<!-- zoho internal link (unresolved): " ++ replaceArrow href ++
            uts " -->", r.2)
    else if href ≠ [] ∧ ¬ List.isPrefixOf (uts "http") href ∧
        ¬ List.isPrefixOf (uts "mailto:") href ∧
        ¬ List.isPrefixOf (uts "#") href then
      (uts "![[attachments/" ++ normalizeFilename href ++ uts "]]", r.2)
    else if text = href ∨ text = [] then (href, r.2)
    else (uts "[" ++ text ++ uts "](" ++ href ++ uts ")", r.2)

/-- `handleTable` of convert.js: rows from `findByTag(node, 'tr')` (deep
preorder search), cells from each row's *direct* `td`/`th` children, padding
to the maximum column count, one separator after the first row. -/
def handleTableF : Nat → CNode → Ctx → IdMap → (List Nat × Ctx)
  | 0, _, ctx, _ => ([], ctx)
  | fuel + 1, node, ctx, idMap =>
    let rc := rowsLoop fuel (findByTag node (uts "tr")) ctx idMap
    if rc.1 = [] then ([], rc.2)
    else
      let colCount := rc.1.foldl (fun m r => max m r.length) 0
      (renderRows colCount rc.1 ++ [10], rc.2)

/-- The `for (const tr of …)` row loop of `handleTable`. -/
def rowsLoop : Nat → List CNode → Ctx → IdMap →
    (List (List (List Nat)) × Ctx)
  | 0, _, ctx, _ => ([], ctx)
  | fuel + 1, trs, ctx, idMap =>
    trs.foldl (rowStep (fun cells cx => cellsLoop fuel cells cx idMap)) ([], ctx)

/-- The `for (const cell of cellNodes)` loop of `handleTable`. -/
def cellsLoop : Nat → List CNode → Ctx → IdMap → (List (List Nat) × Ctx)
  | 0, _, ctx, _ => ([], ctx)
  | fuel + 1, cells, ctx, idMap =>
    cells.foldl (cellStep (fun pt ccs cx => walkSibs fuel pt ccs cx idMap))
      ([], ctx)

end

/-! ### `convertBody` (convert.js) -/

/-- The fields of a parsed note that `convertBody` consumes. -/
structure NoteData where
  title : List Nat
  noteType : Option (List Nat)
  contentNode : CNode

def VIDEO_EXTENSIONS : List (List Nat) :=
  [uts ".webm", uts ".mp4", uts ".mov", uts ".avi", uts ".mkv"]

/-- The fixed video-loss warning template with the title interpolated. -/
def videoWarning (title : List Nat) : List Nat :=
  uts "> **Warning**: Video content was not included in Zoho\x27s export. The original file \"" ++
    title ++ uts "\" could not be recovered." ++ [10]

def isElemNode : CNode → Bool
  | .elem _ _ _ => true
  | .text _ => false

/-- `path.extname` (POSIX): the suffix of the basename from its last dot,
empty when there is no dot or the dot is the basename's first character. -/
def pathExtname (p : List Nat) : List Nat :=
  let base := (p.reverse.takeWhile (fun c => c ≠ 47)).reverse
  let afterLen := (base.reverse.takeWhile (fun c => c ≠ 46)).length
  if afterLen = base.length then []
  else if base.length - afterLen - 1 = 0 then []
  else base.drop (base.length - afterLen - 1)

/-- The run-counting pass of `.replace` on three-plus newlines: runs of LF
keep at most their first two characters. -/
def collapseNLGo : Nat → List Nat → List Nat
  | _, [] => []
  | n, 10 :: rest =>
    if n < 2 then 10 :: collapseNLGo (n + 1) rest else collapseNLGo n rest
  | _, c :: rest => c :: collapseNLGo 0 rest

/-- `result.replace(x, twoLF)`: collapse three or more consecutive newlines
to exactly two. -/
def collapseNL (l : List Nat) : List Nat := collapseNLGo 0 l

/-- The single-element card classifier of `convertBody`: a lone `img`,
`znresource` or attachment-`a` element child renders as a card, anything else
falls through to the tree walker. -/
def cardSpecial (nonEmptyChildren : List CNode) (noteType : Option (List Nat)) :
    Option (List Nat) :=
  match nonEmptyChildren with
  | [CNode.elem n a _] =>
    if lowerL n = uts "img" then
      match List.lookup (uts "src") a with
      | some src =>
        some (uts "![[attachments/" ++ normalizeFilename src ++ uts "]]" ++
          [10])
      | none => none
    else if lowerL n = uts "znresource" then
      some (handleZnresourceCard a noteType)
    else if lowerL n = uts "a" then
      match List.lookup (uts "href") a with
      | some href =>
        if href ≠ [] ∧ ¬ List.isPrefixOf (uts "http") href ∧
            ¬ List.isPrefixOf (uts "zohonotebook://") href then
          let cleanHref := normalizeFilename href
          if pathExtname cleanHref = [] then
            some (uts "Attached audio: ![[attachments/" ++ cleanHref ++
              uts "]]" ++ [10, 10] ++ audioAdvisory)
          else
            some (uts "Attached file: ![[attachments/" ++ cleanHref ++
              uts "]]" ++ [10])
        else none
      | none => none
    else none
  | _ => none

/-- `convertBody` of convert.js: the ordered card-type dispatch (video-lost,
empty, photo, znresource card, file/audio card) with fall-through to the tree
walker plus post-processing. -/
def convertBody (note : NoteData) (idMap : IdMap) : List Nat :=
  let children := note.contentNode.kids
  let nonEmptyChildren := children.filter isElemNode
  if nonEmptyChildren.isEmpty ∧ jsTrim (getText note.contentNode) = [] then
    if VIDEO_EXTENSIONS.any (fun e => List.isSuffixOf e (lowerL note.title)) ∨
        note.noteType = some (uts "note/video") then
      videoWarning note.title
    else []
  else
    match cardSpecial nonEmptyChildren note.noteType with
    | some r => r
    | none =>
      let r := walkSibs (3 * cnSize note.contentNode + 9) note.contentNode.tagL
        children (Ctx.mk 0 none) idMap
      jsTrimEnd (collapseNL r.1) ++ [10]

/-! ### Inputs for the walker claims -/

/-- A checkbox item in one of the two source shapes, with its checked state
and label text. -/
inductive CheckItem where
  | marker : Bool → List Nat → CheckItem
  | selfc : Bool → List Nat → CheckItem

def CheckItem.checked : CheckItem → Bool
  | .marker b _ => b
  | .selfc b _ => b

def CheckItem.label : CheckItem → List Nat
  | .marker _ l => l
  | .selfc _ l => l

/-- The tree shape of one checkbox item: the `marker` shape is
`div > input[type=checkbox][checked?] + span > text`, the `selfc` shape is
`div > checkbox[data-znote-checked?] > text`; a checked state is present as
an attribute only when set, so the absent-attribute case is exercised. -/
def itemNode : CheckItem → CNode
  | .marker checked label =>
    CNode.elem (uts "div") []
      [CNode.elem (uts "input")
        ((uts "type", uts "checkbox") ::
          (if checked then [(uts "checked", [])] else [])) [],
       CNode.elem (uts "span") [] [CNode.text label]]
  | .selfc checked label =>
    CNode.elem (uts "div")
      []
      [CNode.elem (uts "checkbox")
        (if checked then [(uts "data-znote-checked", uts "true")] else [])
        [CNode.text label]]

/-- A note whose content is a sequence of checkbox items. -/
def checklistNote (its : List CheckItem) : NoteData :=
  NoteData.mk (uts "Checklist") none
    (CNode.elem (uts "content") [] (its.map itemNode))

def markerPrefix (b : Bool) : List Nat :=
  if b then uts "- [x] " else uts "- [ ] "

/-- The rendered line of one checkbox item. -/
def itemLine (it : CheckItem) : List Nat :=
  markerPrefix it.checked ++ it.label ++ [10]

/-- The lines of a body that begin with a checkbox marker. -/
def markerLines (body : List Nat) : List (List Nat) :=
  (splitNL body).filter fun ln =>
    List.isPrefixOf (uts "- [ ]") ln || List.isPrefixOf (uts "- [x]") ln

/-- Label texts for which a checkbox line renders verbatim: trim-fixed,
non-empty, and free of LF and of the two folded space characters. -/
def labelOk (lab : List Nat) : Prop :=
  jsTrim lab = lab ∧ lab ≠ [] ∧ ∀ c ∈ lab, c ≠ 10 ∧ c ≠ 0xa0 ∧ c ≠ 0x202f

instance (lab : List Nat) : Decidable (labelOk lab) := by
  unfold labelOk
  infer_instance

/-- The marker-line spoof: a content tree with no checkbox item whose text
already reads like a checked-off line. -/
def spoofNote : NoteData :=
  NoteData.mk (uts "Spoof") none
    (CNode.elem (uts "content") [] [CNode.text (uts "- [ ] spoof")])

/-- Flat table family for C8: `table > tr* > td > text`. -/
def mkCell (t : List Nat) : CNode := CNode.elem (uts "td") [] [CNode.text t]

def mkRow (r : List (List Nat)) : CNode :=
  CNode.elem (uts "tr") [] (r.map mkCell)

def mkTable (rs : List (List (List Nat))) : CNode :=
  CNode.elem (uts "table") [] (rs.map mkRow)

def maxCols (rs : List (List (List Nat))) : Nat :=
  rs.foldl (fun m r => max m r.length) 0

/-- Modelled from the spec's table wording: every row padded to the maximum
column count, pipes escaped in cell text, and exactly one header-separator
row immediately after the first row. -/
def padTo (cc : Nat) (r : List (List Nat)) : List (List Nat) :=
  r ++ List.replicate (cc - r.length) []

def specRowLine (cc : Nat) (r : List (List Nat)) : List Nat :=
  uts "| " ++ List.intercalate (uts " | ") (padTo cc (r.map escPipes)) ++
    uts " |" ++ [10]

def specSepLine (cc : Nat) : List Nat :=
  uts "| " ++ List.intercalate (uts " | ")
    (List.replicate cc (uts "---")) ++ uts " |" ++ [10]

def expectedTable : List (List (List Nat)) → List Nat
  | [] => []
  | r0 :: rest =>
    specRowLine (maxCols (r0 :: rest)) r0 ++ specSepLine (maxCols (r0 :: rest)) ++
      (rest.map (specRowLine (maxCols (r0 :: rest)))).flatten ++ [10]

/-- Cell texts for which a cell renders verbatim (modulo pipe escaping). -/
def cellOk (t : List Nat) : Prop :=
  jsTrim t = t ∧ ∀ c ∈ t, c ≠ 10 ∧ c ≠ 0xa0 ∧ c ≠ 0x202f

instance (t : List Nat) : Decidable (cellOk t) := by
  unfold cellOk
  infer_instance

/-- A table nested inside the first cell of an outer table (C8
counterexample). -/
def innerTable : CNode :=
  CNode.elem (uts "table") []
    [CNode.elem (uts "tr") [] [CNode.elem (uts "td") [] [CNode.text [73]]]]

def outerTable : CNode :=
  CNode.elem (uts "table") []
    [CNode.elem (uts "tr") []
      [CNode.elem (uts "td") [] [innerTable],
       CNode.elem (uts "td") [] [CNode.text [65]]]]

/-- A chain of `n` nested `span` elements around a text leaf (C9). -/
def spanNest : Nat → CNode
  | 0 => CNode.text [120]
  | n + 1 => CNode.elem (uts "span") [] [spanNest n]

/-! ### Lemmas about `toFolderName` -/

theorem mem_collapseWs {c : Nat} {l : List Nat} (h : c ∈ collapseWs l) :
    c = 45 ∨ c ∈ l := by
  induction l using collapseWs.induct with
  | case1 => simp [collapseWs] at h
  | case2 c' rest hc ih =>
    rw [collapseWs, if_pos hc] at h
    rcases List.mem_cons.mp h with h | h
    · exact Or.inl h
    · rcases ih h with h | h
      · exact Or.inl h
      · exact Or.inr (List.mem_cons_of_mem _ ((List.dropWhile_sublist _).subset h))
  | case3 c' rest hc ih =>
    rw [collapseWs, if_neg hc] at h
    rcases List.mem_cons.mp h with h | h
    · exact Or.inr (by simp [h])
    · rcases ih h with h | h
      · exact Or.inl h
      · exact Or.inr (List.mem_cons_of_mem _ h)

theorem mem_collapseHyphens {c : Nat} {l : List Nat} (h : c ∈ collapseHyphens l) :
    c = 45 ∨ c ∈ l := by
  induction l using collapseHyphens.induct with
  | case1 => simp [collapseHyphens] at h
  | case2 rest ih =>
    rw [collapseHyphens, if_pos rfl] at h
    rcases List.mem_cons.mp h with h | h
    · exact Or.inl h
    · rcases ih h with h | h
      · exact Or.inl h
      · exact Or.inr (List.mem_cons_of_mem _ ((List.dropWhile_sublist _).subset h))
  | case3 c' rest hc ih =>
    rw [collapseHyphens, if_neg hc] at h
    rcases List.mem_cons.mp h with h | h
    · exact Or.inr (by simp [h])
    · rcases ih h with h | h
      · exact Or.inl h
      · exact Or.inr (List.mem_cons_of_mem _ h)

theorem mem_trimEdgeHyphens {c : Nat} {l : List Nat} (h : c ∈ trimEdgeHyphens l) :
    c ∈ l := by
  simp only [trimEdgeHyphens] at h
  split at h
  · split at h
    · exact (List.tail_sublist l).subset ((List.dropLast_sublist _).subset h)
    · exact (List.tail_sublist l).subset h
  · split at h
    · exact (List.dropLast_sublist _).subset h
    · exact h

theorem toFolderName_no_dot (nb : List Nat) : ∀ c ∈ toFolderName nb, c ≠ 46 := by
  intro c hc
  simp only [toFolderName] at hc
  split at hc
  · revert hc; revert c; decide
  · have h1 := mem_trimEdgeHyphens hc
    rcases mem_collapseHyphens h1 with h | h
    · omega
    · rcases mem_collapseWs h with h | h
      · omega
      · have := List.of_mem_filter h
        simpa using this

theorem containsSub_dotdot {l : List Nat} (h : containsSub l [46, 46] = true) :
    46 ∈ l := by
  induction l with
  | nil => simp [containsSub, List.isPrefixOf] at h
  | cons c rest ih =>
    rw [containsSub, Bool.or_eq_true] at h
    rcases h with h | h
    · have : c = 46 := by
        simp [List.isPrefixOf] at h
        exact h.1.symm
      simp [this]
    · exact List.mem_cons_of_mem _ (ih h)

/-- **C2.** For every input consisting solely of dots, `toFolderName` returns
the fixed fallback `"uncategorized"`; and for every input whatsoever the
returned folder name never contains the substring `".."`. -/
theorem toFolderName_dot_safety :
    (∀ s : List Nat, (∀ c ∈ s, c = 46) → toFolderName s = uncategorized) ∧
    (∀ s : List Nat, containsSub (toFolderName s) (uts "..") = false) := by
  constructor
  · intro s hs
    have hfix : stripDots (stripIllegal (lowerL (normSpace s))) = [] := by
      apply List.filter_eq_nil_iff.mpr
      intro a ha
      have h1 : a ∈ lowerL (normSpace s) := (List.filter_sublist _).subset ha
      have h2 : a = 46 := by
        unfold lowerL normSpace at h1
        simp only [List.map_map, List.mem_map] at h1
        obtain ⟨b, hb, hba⟩ := h1
        have : b = 46 := hs b hb
        subst this
        simpa [asciiLower] using hba.symm
      simp [h2]
    simp only [toFolderName]
    rw [hfix]
    simp [collapseWs, collapseHyphens, trimEdgeHyphens]
  · intro s
    have huts : uts ".." = [46, 46] := by decide
    rw [huts]
    by_contra hcon
    have h46 : 46 ∈ toFolderName s := containsSub_dotdot (by
      cases h : containsSub (toFolderName s) [46, 46]
      · exact absurd h hcon
      · rfl)
    exact toFolderName_no_dot s 46 h46 rfl

/-- Witness for the hypothesis-bearing half of `toFolderName_dot_safety`,
evaluated at the all-dots input `"..."`. -/
theorem toFolderName_dot_safety_witness :
    toFolderName [46, 46, 46] = uncategorized ∧
    containsSub (toFolderName [46, 46, 46]) (uts "..") = false :=
  ⟨toFolderName_dot_safety.1 [46, 46, 46] (by decide),
   toFolderName_dot_safety.2 [46, 46, 46]⟩

/-! ### Generic lemmas about the JS trim model -/

theorem head?_dropWhile {p : Nat → Bool} {l : List Nat} {c : Nat}
    (h : (l.dropWhile p).head? = some c) : p c = false := by
  induction l with
  | nil => simp [List.dropWhile] at h
  | cons a as ih =>
    rw [List.dropWhile_cons] at h
    split at h
    · exact ih h
    · simp only [List.head?_cons, Option.some.injEq] at h
      subst h
      simpa using ‹¬ p a = true›

theorem suffix_reverse_prefix {X l : List Nat} (h : X <:+ l.reverse) :
    X.reverse <+: l := by
  obtain ⟨t, ht⟩ := h
  refine ⟨t.reverse, ?_⟩
  have := congrArg List.reverse ht
  simpa [List.reverse_append] using this

theorem jsTrimEnd_front (l : List Nat) : jsTrimEnd l <+: l :=
  suffix_reverse_prefix (List.dropWhile_suffix _)

theorem jsTrimEnd_subset {l : List Nat} : ∀ c ∈ jsTrimEnd l, c ∈ l :=
  fun _ hc => (jsTrimEnd_front l).sublist.subset hc

theorem jsTrim_subset {l : List Nat} : ∀ c ∈ jsTrim l, c ∈ l := by
  intro c hc
  have h1 := jsTrimEnd_subset _ hc
  exact (List.dropWhile_sublist _).subset h1

theorem getLast?_jsTrimEnd {l : List Nat} {c : Nat}
    (h : (jsTrimEnd l).getLast? = some c) : jsWhiteB c = false := by
  unfold jsTrimEnd at h
  rw [List.getLast?_reverse] at h
  exact head?_dropWhile h

theorem jsTrimEnd_eq_self {l : List Nat}
    (h : ∀ c, l.getLast? = some c → jsWhiteB c = false) : jsTrimEnd l = l := by
  unfold jsTrimEnd
  cases hr : l.reverse with
  | nil =>
    have : l = [] := by simpa using congrArg List.reverse hr
    simp [this]
  | cons a as =>
    have ha : l.getLast? = some a := by
      rw [← List.head?_reverse, hr, List.head?_cons]
    rw [List.dropWhile_cons_of_neg (by simp [h a ha])]
    rw [← hr, List.reverse_reverse]

theorem jsTrimStart_eq_self {l : List Nat}
    (h : ∀ c, l.head? = some c → jsWhiteB c = false) : jsTrimStart l = l := by
  unfold jsTrimStart
  cases l with
  | nil => rfl
  | cons a as =>
    rw [List.dropWhile_cons_of_neg (by simp [h a rfl])]

theorem head?_jsTrim {l : List Nat} {c : Nat}
    (h : (jsTrim l).head? = some c) : jsWhiteB c = false := by
  unfold jsTrim at h
  have hne : jsTrimEnd (jsTrimStart l) ≠ [] := by
    intro he
    rw [he] at h
    simp at h
  have hpre := jsTrimEnd_front (jsTrimStart l)
  obtain ⟨q, hq⟩ := hpre
  have : (jsTrimStart l).head? = some c := by
    rw [← hq]
    cases hE : jsTrimEnd (jsTrimStart l) with
    | nil => exact absurd hE hne
    | cons a as =>
      rw [hE] at h
      simpa using h
  exact head?_dropWhile this

theorem getLast?_jsTrim {l : List Nat} {c : Nat}
    (h : (jsTrim l).getLast? = some c) : jsWhiteB c = false :=
  getLast?_jsTrimEnd h

/-! ### Byte-length lemmas -/

theorem utf8Len_single_le (c : Nat) : utf8Len [c] ≤ 3 := by
  simp only [utf8Len]
  split <;> [omega; split <;> omega]

theorem utf8Len_prefix_le {p l : List Nat} (h : p <+: l) :
    utf8Len p ≤ utf8Len l := by
  obtain ⟨q, rfl⟩ := h
  induction p using utf8Len.induct with
  | case1 =>
    rw [List.nil_append]
    simp only [utf8Len]
    exact Nat.zero_le _
  | case2 c h1 =>
    cases q with
    | nil => simp
    | cons d q2 =>
      rw [List.cons_append, List.nil_append]
      simp [utf8Len, h1]
  | case3 c h1 h2 =>
    cases q with
    | nil => simp
    | cons d q2 =>
      rw [List.cons_append, List.nil_append]
      simp [utf8Len, h1, h2]
  | case4 c h1 h2 =>
    cases q with
    | nil => simp
    | cons d q2 =>
      rw [List.cons_append, List.nil_append]
      by_cases h3 : isHigh c = true
      · by_cases hd : isLow d = true
        · simp only [utf8Len, if_neg h1, if_neg h2, h3, if_true, hd]
          omega
        · simp [utf8Len, h1, h2, h3, hd]
      · simp only [utf8Len, if_neg h1, if_neg h2, h3, Bool.false_eq_true, if_false]
        omega
  | case5 c d rest h1 ih =>
    simp only [List.cons_append] at ih ⊢
    simp only [utf8Len, if_pos h1]
    omega
  | case6 c d rest h1 h2 ih =>
    simp only [List.cons_append] at ih ⊢
    simp only [utf8Len, if_neg h1, if_pos h2]
    omega
  | case7 c d rest h1 h2 h3 hd ih =>
    simp only [List.cons_append] at ih ⊢
    simp only [utf8Len, if_neg h1, if_neg h2, h3, hd, if_true]
    omega
  | case8 c d rest h1 h2 h3 hd ih =>
    simp only [List.cons_append] at ih ⊢
    simp [utf8Len, h1, h2, h3, hd]
    omega
  | case9 c d rest h1 h2 h3 ih =>
    simp only [List.cons_append] at ih ⊢
    simp only [utf8Len, if_neg h1, if_neg h2, h3, Bool.false_eq_true, if_false]
    omega

theorem truncGo_le {n : Nat} {s : List Nat} (h : s.length ≤ n) :
    utf8Len (truncGo n s) ≤ 200 := by
  induction n generalizing s with
  | zero =>
    have : s = [] := List.eq_nil_of_length_eq_zero (by omega)
    subst this
    simp [truncGo, utf8Len]
  | succ n ih =>
    rw [truncGo]
    split
    · apply ih
      rw [List.length_dropLast]
      omega
    · omega

theorem truncLoop_le (s : List Nat) : utf8Len (truncLoop s) ≤ 200 :=
  truncGo_le (Nat.le_refl _)

theorem truncGo_front (n : Nat) (s : List Nat) : truncGo n s <+: s := by
  induction n generalizing s with
  | zero => exact List.prefix_rfl
  | succ n ih =>
    rw [truncGo]
    split
    · exact (ih _).trans (List.dropLast_prefix s)
    · exact List.prefix_rfl

theorem truncLoop_front (s : List Nat) : truncLoop s <+: s := truncGo_front _ _

theorem surrFix_front (s : List Nat) : surrFix s <+: s := by
  unfold surrFix
  cases s.getLast? with
  | none => exact List.prefix_rfl
  | some c =>
    dsimp only
    split
    · exact List.dropLast_prefix s
    · exact List.prefix_rfl

theorem nameAfterCap_byteLen (t : List Nat) : utf8Len (nameAfterCap t) ≤ 200 := by
  unfold nameAfterCap
  split
  · calc utf8Len (jsTrimEnd (surrFix (truncLoop (nameAfterReserved t))))
        ≤ utf8Len (surrFix (truncLoop (nameAfterReserved t))) :=
          utf8Len_prefix_le (jsTrimEnd_front _)
      _ ≤ utf8Len (truncLoop (nameAfterReserved t)) :=
          utf8Len_prefix_le (surrFix_front _)
      _ ≤ 200 := truncLoop_le _
  · omega

theorem sanitizeFilename_byteLen (t : List Nat) :
    utf8Len (sanitizeFilename t) ≤ 200 := by
  unfold sanitizeFilename
  split
  · show utf8Len (uts "Untitled") ≤ 200
    decide
  · exact nameAfterCap_byteLen t

/-! ### Character-class invariants of `sanitizeFilename` -/

theorem cleanedName_good {t : List Nat} {c : Nat} (h : c ∈ cleanedName t) :
    32 ≤ c ∧ c ≠ 127 ∧ ¬ (0x80 ≤ c ∧ c ≤ 0x9F) ∧ c ≠ 0x2028 ∧ c ≠ 0x2029 ∧
    c ≠ 0xa0 ∧ c ≠ 0x202f ∧ isIllegalChar c = false := by
  have h1 : c ∈ stripIllegal (sepToSpace (stripC1 (stripCtl (normSpace t)))) :=
    jsTrim_subset _ h
  obtain ⟨h2, hill⟩ := List.mem_filter.mp h1
  simp only [decide_eq_true_eq] at hill
  obtain ⟨b, hb, hbc⟩ := List.mem_map.mp h2
  obtain ⟨hb2, hc1⟩ := List.mem_filter.mp hb
  simp only [decide_eq_true_eq] at hc1
  obtain ⟨hb3, hc0⟩ := List.mem_filter.mp hb2
  simp only [decide_eq_true_eq] at hc0
  have hbn : c = 32 ∨ (¬ (b = 0x2028 ∨ b = 0x2029) ∧ c = b) := by
    by_cases hsep : b = 0x2028 ∨ b = 0x2029
    · left
      rw [if_pos hsep] at hbc
      omega
    · right
      rw [if_neg hsep] at hbc
      exact ⟨hsep, hbc.symm⟩
  have hno : ∀ a ∈ normSpace t, a ≠ 0xa0 ∧ a ≠ 0x202f := by
    intro a ha
    obtain ⟨x, _, hxa⟩ := List.mem_map.mp ha
    by_cases hx : x = 0x202f ∨ x = 0xa0
    · rw [if_pos hx] at hxa; omega
    · rw [if_neg hx] at hxa; omega
  rcases hbn with hb32 | ⟨hnsep, hcb⟩
  · subst hb32
    refine ⟨by omega, by omega, by omega, by omega, by omega, by omega, by omega, ?_⟩
    decide
  · have hna := hno b hb3
    subst hcb
    exact ⟨by omega, by omega, by omega, by omega, by omega, hna.1, hna.2,
      by simpa using hill⟩

theorem utsUntitled_good : ∀ c ∈ utsUntitled,
    32 ≤ c ∧ c ≠ 127 ∧ ¬ (0x80 ≤ c ∧ c ≤ 0x9F) ∧ c ≠ 0x2028 ∧ c ≠ 0x2029 ∧
    c ≠ 0xa0 ∧ c ≠ 0x202f ∧ isIllegalChar c = false := by decide

theorem nameAfterFallback_good {t : List Nat} {c : Nat}
    (h : c ∈ nameAfterFallback t) :
    32 ≤ c ∧ c ≠ 127 ∧ ¬ (0x80 ≤ c ∧ c ≤ 0x9F) ∧ c ≠ 0x2028 ∧ c ≠ 0x2029 ∧
    c ≠ 0xa0 ∧ c ≠ 0x202f ∧ isIllegalChar c = false := by
  unfold nameAfterFallback at h
  split at h
  · exact utsUntitled_good c h
  · exact cleanedName_good h

theorem nameAfterReserved_good {t : List Nat} {c : Nat}
    (h : c ∈ nameAfterReserved t) :
    32 ≤ c ∧ c ≠ 127 ∧ ¬ (0x80 ≤ c ∧ c ≤ 0x9F) ∧ c ≠ 0x2028 ∧ c ≠ 0x2029 ∧
    c ≠ 0xa0 ∧ c ≠ 0x202f ∧ isIllegalChar c = false := by
  unfold nameAfterReserved at h
  split at h
  · rcases List.mem_cons.mp h with rfl | h2
    · refine ⟨by omega, by omega, by omega, by omega, by omega, by omega,
        by omega, by decide⟩
    · exact nameAfterFallback_good h2
  · exact nameAfterFallback_good h

theorem nameAfterCap_good {t : List Nat} {c : Nat} (h : c ∈ nameAfterCap t) :
    32 ≤ c ∧ c ≠ 127 ∧ ¬ (0x80 ≤ c ∧ c ≤ 0x9F) ∧ c ≠ 0x2028 ∧ c ≠ 0x2029 ∧
    c ≠ 0xa0 ∧ c ≠ 0x202f ∧ isIllegalChar c = false := by
  unfold nameAfterCap at h
  split at h
  · have h1 := jsTrimEnd_subset _ h
    have h2 := (surrFix_front _).sublist.subset h1
    have h3 := (truncLoop_front _).sublist.subset h2
    exact nameAfterReserved_good h3
  · exact nameAfterReserved_good h

theorem sanitizeFilename_good {t : List Nat} {c : Nat}
    (h : c ∈ sanitizeFilename t) :
    32 ≤ c ∧ c ≠ 127 ∧ ¬ (0x80 ≤ c ∧ c ≤ 0x9F) ∧ c ≠ 0x2028 ∧ c ≠ 0x2029 ∧
    c ≠ 0xa0 ∧ c ≠ 0x202f ∧ isIllegalChar c = false := by
  unfold sanitizeFilename at h
  split at h
  · exact utsUntitled_good c h
  · exact nameAfterCap_good h

/-! ### Edge-character facts needed for idempotence -/

theorem prefix_head? {p l : List Nat} (h : p <+: l) (hne : p ≠ []) :
    p.head? = l.head? := by
  obtain ⟨q, rfl⟩ := h
  cases p with
  | nil => exact absurd rfl hne
  | cons a as => simp

theorem nameAfterFallback_ne_nil (t : List Nat) : nameAfterFallback t ≠ [] := by
  unfold nameAfterFallback
  split
  · decide
  · assumption

theorem nameAfterReserved_ne_nil (t : List Nat) : nameAfterReserved t ≠ [] := by
  unfold nameAfterReserved
  split
  · simp
  · exact nameAfterFallback_ne_nil t

theorem sanitizeFilename_ne_nil (t : List Nat) : sanitizeFilename t ≠ [] := by
  unfold sanitizeFilename
  split
  · decide
  · assumption

theorem nameAfterFallback_head {t : List Nat} {c : Nat}
    (h : (nameAfterFallback t).head? = some c) : jsWhiteB c = false := by
  unfold nameAfterFallback at h
  split at h
  · rw [show (utsUntitled).head? = some 85 from by decide] at h
    injection h with h
    subst h
    decide
  · exact head?_jsTrim h

theorem nameAfterReserved_head {t : List Nat} {c : Nat}
    (h : (nameAfterReserved t).head? = some c) : jsWhiteB c = false := by
  unfold nameAfterReserved at h
  split at h
  · simp only [List.head?_cons, Option.some.injEq] at h
    subst h
    decide
  · exact nameAfterFallback_head h

theorem nameAfterCap_head {t : List Nat} {c : Nat}
    (h : (nameAfterCap t).head? = some c) : jsWhiteB c = false := by
  unfold nameAfterCap at h
  split at h
  · have hpre : jsTrimEnd (surrFix (truncLoop (nameAfterReserved t))) <+:
        nameAfterReserved t :=
      ((jsTrimEnd_front _).trans (surrFix_front _)).trans (truncLoop_front _)
    cases hE : jsTrimEnd (surrFix (truncLoop (nameAfterReserved t))) with
    | nil => rw [hE] at h; simp at h
    | cons a as =>
      rw [hE] at h
      have := prefix_head? hpre (by rw [hE]; simp)
      rw [hE] at this
      exact nameAfterReserved_head (this ▸ h)
  · exact nameAfterReserved_head h

theorem nameAfterFallback_last {t : List Nat} {c : Nat}
    (h : (nameAfterFallback t).getLast? = some c) : jsWhiteB c = false := by
  unfold nameAfterFallback at h
  split at h
  · rw [show (utsUntitled).getLast? = some 100 from by decide] at h
    injection h with h
    subst h
    decide
  · exact getLast?_jsTrim h

theorem nameAfterReserved_last {t : List Nat} {c : Nat}
    (h : (nameAfterReserved t).getLast? = some c) : jsWhiteB c = false := by
  unfold nameAfterReserved at h
  split at h
  · cases hf : nameAfterFallback t with
    | nil => exact absurd hf (nameAfterFallback_ne_nil t)
    | cons a as =>
      rw [hf, List.getLast?_cons_cons] at h
      exact nameAfterFallback_last (by rw [hf]; exact h)
  · exact nameAfterFallback_last h

theorem nameAfterCap_last {t : List Nat} {c : Nat}
    (h : (nameAfterCap t).getLast? = some c) : jsWhiteB c = false := by
  unfold nameAfterCap at h
  split at h
  · exact getLast?_jsTrimEnd h
  · exact nameAfterReserved_last h

theorem sanitizeFilename_head {t : List Nat} {c : Nat}
    (h : (sanitizeFilename t).head? = some c) : jsWhiteB c = false := by
  unfold sanitizeFilename at h
  split at h
  · rw [show (utsUntitled).head? = some 85 from by decide] at h
    injection h with h
    subst h
    decide
  · exact nameAfterCap_head h

theorem sanitizeFilename_last {t : List Nat} {c : Nat}
    (h : (sanitizeFilename t).getLast? = some c) : jsWhiteB c = false := by
  unfold sanitizeFilename at h
  split at h
  · rw [show (utsUntitled).getLast? = some 100 from by decide] at h
    injection h with h
    subst h
    decide
  · exact nameAfterCap_last h

/-! ### Well-formed UTF-16 preservation -/

theorem low_not_high {c : Nat} (h : isLow c = true) : isHigh c = false := by
  simp only [isLow, decide_eq_true_eq] at h
  simp only [isHigh, decide_eq_false_iff_not]
  omega

theorem ws_not_surr {c : Nat} (h : jsWhiteB c = true) :
    isHigh c = false ∧ isLow c = false := by
  simp only [jsWhiteB, decide_eq_true_eq] at h
  constructor <;> simp only [isHigh, isLow, decide_eq_false_iff_not] <;> omega

theorem wf16_cons_nonsurr {c : Nat} (X : List Nat) (h1 : isHigh c = false)
    (h2 : isLow c = false) : wf16 (c :: X) = wf16 X := by
  cases X with
  | nil => simp [wf16, h1, h2]
  | cons x xs => simp [wf16, h1, h2]

theorem wf16_map_spacefold (f : Nat → Nat)
    (hf : ∀ c, f c = c ∨ ((isHigh c = false ∧ isLow c = false) ∧ f c = 32))
    {l : List Nat} (h : wf16 l = true) : wf16 (l.map f) = true := by
  induction l using wf16.induct with
  | case1 => simpa using h
  | case2 c h1 => simp [wf16, h1] at h
  | case3 c h1 h2 => simp [wf16, h1, h2] at h
  | case4 c h1 h2 =>
    rcases hf c with hc | ⟨⟨hh, hl⟩, hc⟩
    · rw [List.map_singleton, hc]
      exact h
    · rw [List.map_singleton, hc]
      decide
  | case5 c d rest h1 ih =>
    rw [wf16, if_pos h1, Bool.and_eq_true] at h
    have hfc : f c = c := by
      rcases hf c with hc | ⟨⟨hh, _⟩, _⟩
      · exact hc
      · simp [h1] at hh
    have hfd : f d = d := by
      rcases hf d with hd | ⟨⟨_, hl⟩, _⟩
      · exact hd
      · simp [h.1] at hl
    rw [List.map_cons, List.map_cons, hfc, hfd, wf16, if_pos h1, Bool.and_eq_true]
    exact ⟨h.1, ih h.2⟩
  | case6 c d rest h1 h2 =>
    rw [wf16, if_neg (by simp [h1]), if_pos h2] at h
    cases h
  | case7 c d rest h1 h2 ih =>
    rw [wf16, if_neg (by simp [h1]), if_neg (by simp [h2])] at h
    have hscs : isHigh (f c) = false ∧ isLow (f c) = false := by
      rcases hf c with hc | ⟨_, hc⟩ <;> rw [hc]
      · exact ⟨by simpa using h1, by simpa using h2⟩
      · exact ⟨by decide, by decide⟩
    calc wf16 (List.map f (c :: d :: rest))
        = wf16 (f c :: List.map f (d :: rest)) := by simp
      _ = wf16 (List.map f (d :: rest)) := wf16_cons_nonsurr _ hscs.1 hscs.2
      _ = true := ih h

theorem wf16_filter (p : Nat → Bool)
    (hp : ∀ c, isHigh c = true ∨ isLow c = true → p c = true)
    {l : List Nat} (h : wf16 l = true) : wf16 (l.filter p) = true := by
  induction l using wf16.induct with
  | case1 => simpa using h
  | case2 c h1 => simp [wf16, h1] at h
  | case3 c h1 h2 => simp [wf16, h1, h2] at h
  | case4 c h1 h2 =>
    by_cases hc : p c = true
    · simpa [List.filter_singleton, hc] using h
    · simp [List.filter_singleton, hc, wf16]
  | case5 c d rest h1 ih =>
    rw [wf16, if_pos h1, Bool.and_eq_true] at h
    rw [List.filter_cons, if_pos (hp c (Or.inl h1)), List.filter_cons,
      if_pos (hp d (Or.inr h.1))]
    rw [wf16, if_pos h1, Bool.and_eq_true]
    exact ⟨h.1, ih h.2⟩
  | case6 c d rest h1 h2 =>
    rw [wf16, if_neg (by simp [h1]), if_pos h2] at h
    cases h
  | case7 c d rest h1 h2 ih =>
    rw [wf16, if_neg (by simp [h1]), if_neg (by simp [h2])] at h
    rw [List.filter_cons]
    by_cases hc : p c = true
    · rw [if_pos hc, wf16_cons_nonsurr _ (by simpa using h1) (by simpa using h2)]
      exact ih h
    · rw [if_neg hc]
      exact ih h

theorem wf16_trimStart {l : List Nat} (h : wf16 l = true) :
    wf16 (jsTrimStart l) = true := by
  induction l with
  | nil => simpa using h
  | cons c rest ih =>
    unfold jsTrimStart at *
    rw [List.dropWhile_cons]
    split
    · have hns := ws_not_surr ‹jsWhiteB c = true›
      rw [wf16_cons_nonsurr _ hns.1 hns.2] at h
      exact ih h
    · exact h

theorem wf16_append_right_not_low {p q : List Nat}
    (hq : ∀ d, q.head? = some d → isLow d = false)
    (h : wf16 (p ++ q) = true) : wf16 p = true := by
  induction p using wf16.induct with
  | case1 => rfl
  | case2 c h1 =>
    rw [List.cons_append, List.nil_append] at h
    exfalso
    cases q with
    | nil => simp [wf16, h1] at h
    | cons d q2 =>
      rw [wf16, if_pos h1, Bool.and_eq_true] at h
      have := hq d rfl
      rw [h.1] at this
      cases this
  | case3 c h1 h2 =>
    rw [List.cons_append, List.nil_append] at h
    exfalso
    cases q with
    | nil => simp [wf16, h1, h2] at h
    | cons d q2 =>
      rw [wf16, if_neg (by simp [h1]), if_pos h2] at h
      cases h
  | case4 c h1 h2 => simp [wf16, h1, h2]
  | case5 c d rest h1 ih =>
    rw [List.cons_append, List.cons_append, wf16, if_pos h1, Bool.and_eq_true] at h
    rw [wf16, if_pos h1, Bool.and_eq_true]
    exact ⟨h.1, ih h.2⟩
  | case6 c d rest h1 h2 =>
    rw [List.cons_append, List.cons_append, wf16, if_neg (by simp [h1]),
      if_pos h2] at h
    cases h
  | case7 c d rest h1 h2 ih =>
    rw [List.cons_append, List.cons_append, wf16, if_neg (by simp [h1]),
      if_neg (by simp [h2]), ← List.cons_append] at h
    rw [wf16, if_neg (by simp [h1]), if_neg (by simp [h2])]
    exact ih h

theorem wf16_trimEnd {l : List Nat} (h : wf16 l = true) :
    wf16 (jsTrimEnd l) = true := by
  have hsplit : jsTrimEnd l ++ (l.reverse.takeWhile jsWhiteB).reverse = l := by
    have h1 := List.takeWhile_append_dropWhile jsWhiteB l.reverse
    have h2 := congrArg List.reverse h1
    rw [List.reverse_append] at h2
    rw [List.reverse_reverse] at h2
    exact h2
  apply wf16_append_right_not_low (q := (l.reverse.takeWhile jsWhiteB).reverse)
  · intro d hd
    have hdm : d ∈ (l.reverse.takeWhile jsWhiteB).reverse := by
      cases hq : (l.reverse.takeWhile jsWhiteB).reverse with
      | nil => rw [hq] at hd; cases hd
      | cons a as =>
        rw [hq] at hd
        simp only [List.head?_cons, Option.some.injEq] at hd
        rw [← hd]
        exact List.mem_cons_self a as
    rw [List.mem_reverse] at hdm
    exact (ws_not_surr (List.mem_takeWhile_imp hdm)).2
  · rw [hsplit]
    exact h

theorem wf16_getLast_not_high {l : List Nat} (h : wf16 l = true) :
    ∀ c, l.getLast? = some c → isHigh c = false := by
  induction l using wf16.induct with
  | case1 => intro c hc; cases hc
  | case2 c h1 => simp [wf16, h1] at h
  | case3 c h1 h2 => simp [wf16, h1, h2] at h
  | case4 c h1 h2 =>
    intro e he
    simp only [List.getLast?_singleton, Option.some.injEq] at he
    subst he
    simpa using h1
  | case5 c d rest h1 ih =>
    rw [wf16, if_pos h1, Bool.and_eq_true] at h
    intro e he
    rw [List.getLast?_cons_cons] at he
    cases rest with
    | nil =>
      simp only [List.getLast?_singleton, Option.some.injEq] at he
      subst he
      exact low_not_high h.1
    | cons r rs =>
      exact ih h.2 e (by simpa using he)
  | case6 c d rest h1 h2 =>
    rw [wf16, if_neg (by simp [h1]), if_pos h2] at h
    cases h
  | case7 c d rest h1 h2 ih =>
    rw [wf16, if_neg (by simp [h1]), if_neg (by simp [h2])] at h
    intro e he
    rw [List.getLast?_cons_cons] at he
    exact ih h e he

theorem wf16_prefix_cases {l p : List Nat} (hwf : wf16 l = true) (hp : p <+: l) :
    wf16 p = true ∨ ∃ w h0, p = w ++ [h0] ∧ isHigh h0 = true ∧ wf16 w = true := by
  induction l using wf16.induct generalizing p with
  | case1 =>
    left
    rw [List.prefix_nil.mp hp]
    rfl
  | case2 c h1 => simp [wf16, h1] at hwf
  | case3 c h1 h2 => simp [wf16, h1, h2] at hwf
  | case4 c h1 h2 =>
    rcases List.prefix_cons_iff.mp hp with rfl | ⟨p2, rfl, hp2⟩
    · left; rfl
    · rw [List.prefix_nil.mp hp2]
      left
      simpa [wf16] using hwf
  | case5 c d rest h1 ih =>
    rw [wf16, if_pos h1, Bool.and_eq_true] at hwf
    rcases List.prefix_cons_iff.mp hp with rfl | ⟨p2, rfl, hp2⟩
    · left; rfl
    · rcases List.prefix_cons_iff.mp hp2 with rfl | ⟨p3, rfl, hp3⟩
      · right
        exact ⟨[], c, rfl, h1, rfl⟩
      · rcases ih hwf.2 hp3 with hw | ⟨w, h0, rfl, hh0, hww⟩
        · left
          rw [wf16, if_pos h1, Bool.and_eq_true]
          exact ⟨hwf.1, hw⟩
        · right
          refine ⟨c :: d :: w, h0, by simp, hh0, ?_⟩
          rw [wf16, if_pos h1, Bool.and_eq_true]
          exact ⟨hwf.1, hww⟩
  | case6 c d rest h1 h2 =>
    rw [wf16, if_neg (by simp [h1]), if_pos h2] at hwf
    cases hwf
  | case7 c d rest h1 h2 ih =>
    rw [wf16, if_neg (by simp [h1]), if_neg (by simp [h2])] at hwf
    rcases List.prefix_cons_iff.mp hp with rfl | ⟨p2, rfl, hp2⟩
    · left; rfl
    · rcases ih hwf hp2 with hw | ⟨w, h0, rfl, hh0, hww⟩
      · left
        rw [wf16_cons_nonsurr _ (by simpa using h1) (by simpa using h2)]
        exact hw
      · right
        refine ⟨c :: w, h0, by simp, hh0, ?_⟩
        rw [wf16_cons_nonsurr _ (by simpa using h1) (by simpa using h2)]
        exact hww

theorem wf16_surrFix_of_front {l s : List Nat} (hwf : wf16 l = true)
    (hs : s <+: l) : wf16 (surrFix s) = true := by
  rcases wf16_prefix_cases hwf hs with hw | ⟨w, h0, rfl, hh0, hww⟩
  · unfold surrFix
    cases hL : s.getLast? with
    | none => exact hw
    | some c =>
      dsimp only
      rw [if_neg (by rw [wf16_getLast_not_high hw c hL]; simp)]
      exact hw
  · unfold surrFix
    rw [List.getLast?_concat]
    dsimp only
    rw [if_pos hh0, List.dropLast_concat]
    exact hww

theorem wf16_cleanedName {t : List Nat} (h : wf16 t = true) :
    wf16 (cleanedName t) = true := by
  unfold cleanedName jsTrim
  apply wf16_trimEnd
  apply wf16_trimStart
  apply wf16_filter
  · intro c hc
    simp only [decide_eq_true_eq]
    rcases hc with hc | hc <;>
      simp only [isHigh, isLow, decide_eq_true_eq] at hc <;>
      simp only [isIllegalChar, decide_eq_true_eq] <;> omega
  apply wf16_map_spacefold
  · intro c
    by_cases hc : c = 0x2028 ∨ c = 0x2029
    · right
      refine ⟨⟨?_, ?_⟩, by rw [if_pos hc]⟩ <;>
        simp only [isHigh, isLow, decide_eq_false_iff_not] <;> omega
    · left
      rw [if_neg hc]
  apply wf16_filter
  · intro c hc
    simp only [decide_eq_true_eq]
    rcases hc with hc | hc <;>
      simp only [isHigh, isLow, decide_eq_true_eq] at hc <;> omega
  apply wf16_filter
  · intro c hc
    simp only [decide_eq_true_eq]
    rcases hc with hc | hc <;>
      simp only [isHigh, isLow, decide_eq_true_eq] at hc <;> omega
  apply wf16_map_spacefold
  · intro c
    by_cases hc : c = 0x202f ∨ c = 0xa0
    · right
      refine ⟨⟨?_, ?_⟩, by rw [if_pos hc]⟩ <;>
        simp only [isHigh, isLow, decide_eq_false_iff_not] <;> omega
    · left
      rw [if_neg hc]
  exact h

theorem wf16_nameAfterFallback {t : List Nat} (h : wf16 t = true) :
    wf16 (nameAfterFallback t) = true := by
  unfold nameAfterFallback
  split
  · decide
  · exact wf16_cleanedName h

theorem wf16_nameAfterReserved {t : List Nat} (h : wf16 t = true) :
    wf16 (nameAfterReserved t) = true := by
  unfold nameAfterReserved
  split
  · rw [wf16_cons_nonsurr _ (by decide) (by decide)]
    exact wf16_nameAfterFallback h
  · exact wf16_nameAfterFallback h

theorem wf16_nameAfterCap {t : List Nat} (h : wf16 t = true) :
    wf16 (nameAfterCap t) = true := by
  unfold nameAfterCap
  split
  · exact wf16_trimEnd
      (wf16_surrFix_of_front (wf16_nameAfterReserved h) (truncLoop_front _))
  · exact wf16_nameAfterReserved h

theorem sanitizeFilename_wf16 {t : List Nat} (h : wf16 t = true) :
    wf16 (sanitizeFilename t) = true := by
  unfold sanitizeFilename
  split
  · decide
  · exact wf16_nameAfterCap h

/-- **C3 (amended).** For every input the sanitized filename is at most 200
UTF-8 bytes and contains no C0 control character; and for every input that is
well-formed UTF-16 (no unpaired surrogates) the result never ends in a high
surrogate.  (The original claim asserted the last conjunct for *every* input;
`sanitizeFilename_c3_counterexample` refutes that: the surrogate guard only
runs inside the truncation branch, so a short input that itself ends in a
lone high surrogate passes through unchanged.) -/
theorem sanitizeFilename_output_bounds :
    (∀ t : List Nat, utf8Len (sanitizeFilename t) ≤ 200) ∧
    (∀ t : List Nat, ∀ c ∈ sanitizeFilename t, ¬ c ≤ 0x1F) ∧
    (∀ t : List Nat, wf16 t = true →
      ∀ c, (sanitizeFilename t).getLast? = some c → ¬ (0xD800 ≤ c ∧ c ≤ 0xDBFF)) := by
  refine ⟨sanitizeFilename_byteLen, ?_, ?_⟩
  · intro t c hc
    have := (sanitizeFilename_good hc).1
    omega
  · intro t ht c hc
    have := wf16_getLast_not_high (sanitizeFilename_wf16 ht) c hc
    simp only [isHigh, decide_eq_false_iff_not] at this
    exact this

/-- Witness for `sanitizeFilename_output_bounds`, evaluated at the concrete
well-formed input `"hello"` (whose sanitized form is `"hello"`). -/
theorem sanitizeFilename_output_bounds_witness :
    utf8Len (sanitizeFilename (uts "hello")) ≤ 200 ∧
    (∀ c ∈ sanitizeFilename (uts "hello"), ¬ c ≤ 0x1F) ∧
    (∀ c, (sanitizeFilename (uts "hello")).getLast? = some c →
      ¬ (0xD800 ≤ c ∧ c ≤ 0xDBFF)) :=
  ⟨sanitizeFilename_output_bounds.1 (uts "hello"),
   sanitizeFilename_output_bounds.2.1 (uts "hello"),
   sanitizeFilename_output_bounds.2.2 (uts "hello") (by decide)⟩

/-- **C3 counterexample.** The input `"a"` followed by the lone high
surrogate U+D800 is returned unchanged by `sanitizeFilename`, so the output's
last UTF-16 code unit *is* a lone high surrogate, refuting the claim as
stated (which quantified over every input string). -/
theorem sanitizeFilename_c3_counterexample :
    sanitizeFilename [97, 0xD800] = [97, 0xD800] ∧
    (sanitizeFilename [97, 0xD800]).getLast? = some 0xD800 ∧
    0xD800 ≤ 0xD800 ∧ 0xD800 ≤ 0xDBFF := by
  refine ⟨by decide, by decide, by omega, by omega⟩

/-! ### Idempotence of `sanitizeFilename` (C4) -/

theorem map_fix {f : Nat → Nat} {l : List Nat} (h : ∀ c ∈ l, f c = c) :
    l.map f = l :=
  (List.map_congr_left h).trans (List.map_id l)

theorem cleanedName_sanitizeFilename (t : List Nat) :
    cleanedName (sanitizeFilename t) = sanitizeFilename t := by
  unfold cleanedName
  have hns : normSpace (sanitizeFilename t) = sanitizeFilename t := by
    apply map_fix
    intro c hc
    have hg := sanitizeFilename_good hc
    rw [if_neg (by omega)]
  rw [hns]
  have hct : stripCtl (sanitizeFilename t) = sanitizeFilename t := by
    apply List.filter_eq_self.mpr
    intro c hc
    have hg := sanitizeFilename_good hc
    simp only [decide_eq_true_eq]
    omega
  rw [hct]
  have hc1 : stripC1 (sanitizeFilename t) = sanitizeFilename t := by
    apply List.filter_eq_self.mpr
    intro c hc
    have hg := sanitizeFilename_good hc
    simp only [decide_eq_true_eq]
    omega
  rw [hc1]
  have hsep : sepToSpace (sanitizeFilename t) = sanitizeFilename t := by
    apply map_fix
    intro c hc
    have hg := sanitizeFilename_good hc
    rw [if_neg (by omega)]
  rw [hsep]
  have hil : stripIllegal (sanitizeFilename t) = sanitizeFilename t := by
    apply List.filter_eq_self.mpr
    intro c hc
    have hg := sanitizeFilename_good hc
    simp [hg.2.2.2.2.2.2.2]
  rw [hil]
  unfold jsTrim
  rw [jsTrimStart_eq_self fun c hc => sanitizeFilename_head hc]
  rw [jsTrimEnd_eq_self fun c hc => sanitizeFilename_last hc]

/-- **C4 (amended).** `sanitizeFilename` is idempotent on every input whose
sanitized result does not match the Windows reserved-device-name pattern.
(The original claim asserted idempotence for every input;
`sanitizeFilename_c4_counterexample` refutes it: 200-byte truncation plus
trailing-whitespace trimming can land the first pass exactly on a reserved
device name, which only the second pass underscore-prefixes.) -/
theorem sanitizeFilename_idem (t : List Nat)
    (h : isReserved (sanitizeFilename t) = false) :
    sanitizeFilename (sanitizeFilename t) = sanitizeFilename t := by
  have h0 : nameAfterFallback (sanitizeFilename t) = sanitizeFilename t := by
    unfold nameAfterFallback
    rw [cleanedName_sanitizeFilename, if_neg (sanitizeFilename_ne_nil t)]
  have h1 : nameAfterReserved (sanitizeFilename t) = sanitizeFilename t := by
    unfold nameAfterReserved
    rw [h0, h]
    simp
  have h2 : nameAfterCap (sanitizeFilename t) = sanitizeFilename t := by
    unfold nameAfterCap
    rw [h1, if_neg (by have := sanitizeFilename_byteLen t; omega)]
  calc sanitizeFilename (sanitizeFilename t)
      = if nameAfterCap (sanitizeFilename t) = [] then utsUntitled
        else nameAfterCap (sanitizeFilename t) := rfl
    _ = sanitizeFilename t := by
        rw [h2, if_neg (sanitizeFilename_ne_nil t)]

/-- Witness for `sanitizeFilename_idem`, evaluated at the concrete input
`"hello"` (whose sanitized form `"hello"` is not a reserved device name). -/
theorem sanitizeFilename_idem_witness :
    sanitizeFilename (sanitizeFilename (uts "hello")) =
      sanitizeFilename (uts "hello") :=
  sanitizeFilename_idem (uts "hello") (by decide)

/-- **C4 counterexample.** On the explicit input `"NUL"` + 197 spaces + `"X"`
(201 bytes) the sanitizer is not idempotent: the first pass truncates and
trims down to the reserved device name `"NUL"` (the reserved-name check had
already run, on the untruncated name), and only the second pass prefixes the
underscore, giving `"_NUL"` ≠ `"NUL"`. -/
theorem sanitizeFilename_c4_counterexample :
    sanitizeFilename (sanitizeFilename nulSpoofInput) ≠
      sanitizeFilename nulSpoofInput ∧
    sanitizeFilename nulSpoofInput = uts "NUL" ∧
    sanitizeFilename (uts "NUL") = uts "_NUL" := by
  refine ⟨by decide, by decide, by decide⟩

/-! ### `escapeYaml` safety and round-trip (C5) -/

theorem mapJoin_append (f : Nat → List Nat) (a b : List Nat) :
    mapJoin f (a ++ b) = mapJoin f a ++ mapJoin f b := by
  simp [mapJoin]

theorem escapeYaml_append (a b : List Nat) :
    escapeYaml (a ++ b) = escapeYaml a ++ escapeYaml b := by
  simp only [escapeYaml, repBackslash, repQuote, stripNull, stripYamlCtl,
    repNEL, repLS, repPS, repLF, repCR, mapJoin_append, List.filter_append]

theorem yamlVisible_append (a b : List Nat) :
    yamlVisible (a ++ b) = yamlVisible a ++ yamlVisible b := by
  simp only [yamlVisible, mapJoin_append]

theorem yamlUnescape_pair {e x : Nat} (l : List Nat)
    (h : (e = 92 ∧ x = 92) ∨ (e = 34 ∧ x = 34) ∨ (e = 110 ∧ x = 10) ∨
      (e = 114 ∧ x = 13)) :
    yamlUnescape (92 :: e :: l) = (yamlUnescape l).map (x :: ·) := by
  rcases h with ⟨rfl, rfl⟩ | ⟨rfl, rfl⟩ | ⟨rfl, rfl⟩ | ⟨rfl, rfl⟩ <;>
    simp [yamlUnescape]

theorem yamlUnescape_plain {c : Nat} (l : List Nat) (h92 : c ≠ 92)
    (hbad : yamlBad c = false) :
    yamlUnescape (c :: l) = (yamlUnescape l).map (c :: ·) := by
  cases l with
  | nil =>
    simp only [yamlUnescape, if_neg h92, hbad]
    rfl
  | cons e rest =>
    simp only [yamlUnescape, if_neg h92, hbad]
    rfl

theorem repBackslash_single_ne {c : Nat} (h : c ≠ 92) :
    repBackslash [c] = [c] := by simp [repBackslash, mapJoin, h]

theorem repQuote_single_ne {c : Nat} (h : c ≠ 34) : repQuote [c] = [c] := by
  simp [repQuote, mapJoin, h]

theorem stripNull_single_ne {c : Nat} (h : c ≠ 0) : stripNull [c] = [c] := by
  simp [stripNull, h]

theorem stripYamlCtl_single_keep {c : Nat}
    (h : ¬ ((1 ≤ c ∧ c ≤ 8) ∨ c = 0xB ∨ c = 0xC ∨ (0xE ≤ c ∧ c ≤ 0x1F) ∨
      c = 0x7F)) : stripYamlCtl [c] = [c] := by
  simp only [stripYamlCtl, List.filter, decide_eq_true_eq]
  rw [decide_eq_true (by exact h)]

theorem stripYamlCtl_single_drop {c : Nat}
    (h : (1 ≤ c ∧ c ≤ 8) ∨ c = 0xB ∨ c = 0xC ∨ (0xE ≤ c ∧ c ≤ 0x1F) ∨
      c = 0x7F) : stripYamlCtl [c] = [] := by
  simp only [stripYamlCtl, List.filter]
  rw [decide_eq_false (by simp [h])]

theorem repNEL_single_ne {c : Nat} (h : c ≠ 0x85) : repNEL [c] = [c] := by
  simp [repNEL, mapJoin, h]

theorem repLS_single_ne {c : Nat} (h : c ≠ 0x2028) : repLS [c] = [c] := by
  simp [repLS, mapJoin, h]

theorem repPS_single_ne {c : Nat} (h : c ≠ 0x2029) : repPS [c] = [c] := by
  simp [repPS, mapJoin, h]

theorem repLF_single_ne {c : Nat} (h : c ≠ 10) : repLF [c] = [c] := by
  simp [repLF, mapJoin, h]

theorem repCR_single_ne {c : Nat} (h : c ≠ 13) : repCR [c] = [c] := by
  simp [repCR, mapJoin, h]

theorem escapeYaml_singleton_ctl {c : Nat}
    (h : (1 ≤ c ∧ c ≤ 8) ∨ c = 0xB ∨ c = 0xC ∨ (0xE ≤ c ∧ c ≤ 0x1F) ∨
      c = 0x7F) :
    escapeYaml [c] = [] := by
  unfold escapeYaml
  rw [repBackslash_single_ne (by omega), repQuote_single_ne (by omega),
    stripNull_single_ne (by omega), stripYamlCtl_single_drop h]
  rfl

theorem yamlVisible_singleton_ctl {c : Nat}
    (h : (1 ≤ c ∧ c ≤ 8) ∨ c = 0xB ∨ c = 0xC ∨ (0xE ≤ c ∧ c ≤ 0x1F) ∨
      c = 0x7F) :
    yamlVisible [c] = [] := by
  have h0 : c = 0 ∨ (1 ≤ c ∧ c ≤ 8) ∨ c = 0xB ∨ c = 0xC ∨
      (0xE ≤ c ∧ c ≤ 0x1F) ∨ c = 0x7F := Or.inr h
  simp only [yamlVisible, mapJoin, List.map_cons, List.map_nil, if_pos h0]
  rfl

theorem escapeYaml_singleton_other {c : Nat} (h92 : c ≠ 92) (h34 : c ≠ 34)
    (h0 : c ≠ 0)
    (hctl : ¬ ((1 ≤ c ∧ c ≤ 8) ∨ c = 0xB ∨ c = 0xC ∨ (0xE ≤ c ∧ c ≤ 0x1F) ∨
      c = 0x7F))
    (h85 : c ≠ 0x85) (hLS : c ≠ 0x2028) (hPS : c ≠ 0x2029) (h10 : c ≠ 10)
    (h13 : c ≠ 13) : escapeYaml [c] = [c] := by
  unfold escapeYaml
  rw [repBackslash_single_ne h92, repQuote_single_ne h34,
    stripNull_single_ne h0, stripYamlCtl_single_keep hctl,
    repNEL_single_ne h85, repLS_single_ne hLS, repPS_single_ne hPS,
    repLF_single_ne h10, repCR_single_ne h13]

theorem yamlVisible_singleton_other {c : Nat}
    (hctl : ¬ (c = 0 ∨ (1 ≤ c ∧ c ≤ 8) ∨ c = 0xB ∨ c = 0xC ∨
      (0xE ≤ c ∧ c ≤ 0x1F) ∨ c = 0x7F))
    (h85 : c ≠ 0x85) (hLS : c ≠ 0x2028) (hPS : c ≠ 0x2029) :
    yamlVisible [c] = [c] := by
  simp only [yamlVisible, mapJoin, List.map_cons, List.map_nil, if_neg hctl,
    if_neg (by simp [h85, hLS, hPS] : ¬ (c = 0x85 ∨ c = 0x2028 ∨ c = 0x2029))]
  rfl

/-- **C5 (amended).** For every input, scanning the escaped output succeeds —
certifying it contains no unescaped double quote, no raw C0 control *other
than TAB (0x09)*, no DEL, no raw line terminator (LF, CR, NEL, LS, PS) and no
dangling backslash — and undoing the backslash escapes recovers the original
text with the stripped controls (NUL, the C0 subset of the strip class, DEL)
removed and with NEL/LS/PS each recovered as LF.  (The original claim said
*no* raw C0 control and that unescaping recovers the original text;
`escapeYaml_c5_counterexample` refutes both: TAB passes through raw, and NEL
round-trips to LF, not to itself.) -/
theorem escapeYaml_safe_roundtrip (l : List Nat) :
    yamlUnescape (escapeYaml l) = some (yamlVisible l) := by
  induction l with
  | nil => decide
  | cons c r ih =>
    rw [show c :: r = [c] ++ r from rfl, escapeYaml_append, yamlVisible_append]
    by_cases h92 : c = 92
    · subst h92
      rw [show escapeYaml [92] = [92, 92] from by decide,
        show yamlVisible [92] = [92] from by decide]
      rw [List.cons_append, List.cons_append, List.nil_append,
        yamlUnescape_pair _ (Or.inl ⟨rfl, rfl⟩), ih]
      rfl
    by_cases h34 : c = 34
    · subst h34
      rw [show escapeYaml [34] = [92, 34] from by decide,
        show yamlVisible [34] = [34] from by decide]
      rw [List.cons_append, List.cons_append, List.nil_append,
        yamlUnescape_pair _ (Or.inr (Or.inl ⟨rfl, rfl⟩)), ih]
      rfl
    by_cases h10 : c = 10
    · subst h10
      rw [show escapeYaml [10] = [92, 110] from by decide,
        show yamlVisible [10] = [10] from by decide]
      rw [List.cons_append, List.cons_append, List.nil_append,
        yamlUnescape_pair _ (Or.inr (Or.inr (Or.inl ⟨rfl, rfl⟩))), ih]
      rfl
    by_cases h13 : c = 13
    · subst h13
      rw [show escapeYaml [13] = [92, 114] from by decide,
        show yamlVisible [13] = [13] from by decide]
      rw [List.cons_append, List.cons_append, List.nil_append,
        yamlUnescape_pair _ (Or.inr (Or.inr (Or.inr ⟨rfl, rfl⟩))), ih]
      rfl
    by_cases h85 : c = 0x85
    · subst h85
      rw [show escapeYaml [0x85] = [92, 110] from by decide,
        show yamlVisible [0x85] = [10] from by decide]
      rw [List.cons_append, List.cons_append, List.nil_append,
        yamlUnescape_pair _ (Or.inr (Or.inr (Or.inl ⟨rfl, rfl⟩))), ih]
      rfl
    by_cases hLS : c = 0x2028
    · subst hLS
      rw [show escapeYaml [0x2028] = [92, 110] from by decide,
        show yamlVisible [0x2028] = [10] from by decide]
      rw [List.cons_append, List.cons_append, List.nil_append,
        yamlUnescape_pair _ (Or.inr (Or.inr (Or.inl ⟨rfl, rfl⟩))), ih]
      rfl
    by_cases hPS : c = 0x2029
    · subst hPS
      rw [show escapeYaml [0x2029] = [92, 110] from by decide,
        show yamlVisible [0x2029] = [10] from by decide]
      rw [List.cons_append, List.cons_append, List.nil_append,
        yamlUnescape_pair _ (Or.inr (Or.inr (Or.inl ⟨rfl, rfl⟩))), ih]
      rfl
    by_cases h0 : c = 0
    · subst h0
      rw [show escapeYaml [0] = [] from by decide,
        show yamlVisible [0] = [] from by decide]
      rw [List.nil_append, List.nil_append, ih]
    by_cases hctl : (1 ≤ c ∧ c ≤ 8) ∨ c = 0xB ∨ c = 0xC ∨
        (0xE ≤ c ∧ c ≤ 0x1F) ∨ c = 0x7F
    · rw [escapeYaml_singleton_ctl hctl, yamlVisible_singleton_ctl hctl,
        List.nil_append, List.nil_append, ih]
    · have hb : yamlBad c = false := by
        simp only [yamlBad, decide_eq_false_iff_not]
        omega
      rw [escapeYaml_singleton_other h92 h34 h0 hctl h85 hLS hPS h10 h13,
        yamlVisible_singleton_other (by omega) h85 hLS hPS,
        List.singleton_append, List.singleton_append,
        yamlUnescape_plain _ h92 hb, ih]
      rfl

/-- **C5 counterexample.** TAB (0x09), a C0 control character, passes through
`escapeYaml` raw; and NEL (0x85) is escaped to `\n`, whose unescape is LF
(0x0A), not the original NEL — refuting, at these concrete inputs, both the
"no raw C0 control byte" conjunct and the exact-round-trip conjunct of the
claim as stated. -/
theorem escapeYaml_c5_counterexample :
    escapeYaml [9] = [9] ∧ (9 : Nat) ≤ 0x1F ∧
    escapeYaml [0x85] = [92, 110] ∧ yamlUnescape [92, 110] = some [10] := by
  refine ⟨by decide, by decide, by decide, by decide⟩

/-! ### Context preservation across the walker (for C10) -/

theorem foldl_preserve {σ α β : Type} (g : σ → β) (step : σ → α → σ)
    (h : ∀ s x, g (step s x) = g s) :
    ∀ (l : List α) (s : σ), g (l.foldl step s) = g s := by
  intro l
  induction l with
  | nil => intro s; rfl
  | cons x xs ih => intro s; rw [List.foldl_cons, ih, h]

theorem sibsStep_pres {walk : CNode → List CNode → Ctx → List Nat × Ctx}
    (hw : ∀ c a cx, (walk c a cx).2 = cx) :
    ∀ s p, (sibsStep walk s p).2.1 = s.2.1 := by
  intro s p
  simp only [sibsStep]
  split
  · rfl
  · exact hw _ _ _

theorem divStep_pres {walk : CNode → List CNode → Ctx → List Nat × Ctx}
    (hw : ∀ c a cx, (walk c a cx).2 = cx) :
    ∀ s p, (divStep walk s p).2.2 = s.2.2 := by
  intro s p
  cases hp : p.1 with
  | text d => simp only [divStep, hp]
  | elem n a c =>
    simp only [divStep, hp]
    split
    · exact hw _ _ _
    · exact hw _ _ _

theorem liStep_pres {walkN : CNode → List CNode → Ctx → List Nat × Ctx}
    {walkS : Option (List Nat) → List CNode → Ctx → List Nat × Ctx}
    (hn : ∀ c a cx, (walkN c a cx).2 = cx)
    (hs : ∀ pt cs cx, (walkS pt cs cx).2 = cx) :
    ∀ s p, (liStep walkN walkS s p).2.2 = s.2.2 := by
  intro s p
  cases hp : p.1 with
  | text d => simp only [liStep, hp]
  | elem n a c =>
    simp only [liStep, hp]
    split
    · rfl
    · split
      · exact hs _ _ _
      · exact hn _ _ _

theorem rowStep_pres {cells : List CNode → Ctx → List (List Nat) × Ctx}
    (hc : ∀ cs cx, (cells cs cx).2 = cx) :
    ∀ s tr, (rowStep cells s tr).2 = s.2 := by
  intro s tr
  simp only [rowStep]
  exact hc _ _

theorem cellStep_pres {walkS : Option (List Nat) → List CNode → Ctx → List Nat × Ctx}
    (hs : ∀ pt cs cx, (walkS pt cs cx).2 = cx) :
    ∀ s c, (cellStep walkS s c).2 = s.2 := by
  intro s c
  simp only [cellStep]
  exact hs _ _ _

theorem walk_pres_all : ∀ fuel,
    (∀ pTag node after ctx idMap,
      (walkNodeF fuel pTag node after ctx idMap).2 = ctx) ∧
    (∀ pTag cs ctx idMap, (walkSibs fuel pTag cs ctx idMap).2 = ctx) ∧
    (∀ attrs cs ctx idMap, (handleDivF fuel attrs cs ctx idMap).2 = ctx) ∧
    (∀ cs ctx idMap, (divLoop fuel cs ctx idMap).2 = ctx) ∧
    (∀ cs ctx idMap, (handleListItemF fuel cs ctx idMap).2 = ctx) ∧
    (∀ attrs cs ctx idMap, (handleLinkF fuel attrs cs ctx idMap).2 = ctx) ∧
    (∀ node ctx idMap, (handleTableF fuel node ctx idMap).2 = ctx) ∧
    (∀ trs ctx idMap, (rowsLoop fuel trs ctx idMap).2 = ctx) ∧
    (∀ cells ctx idMap, (cellsLoop fuel cells ctx idMap).2 = ctx) := by
  intro fuel
  induction fuel with
  | zero =>
    exact ⟨fun _ _ _ _ _ => rfl, fun _ _ _ _ => rfl, fun _ _ _ _ => rfl,
      fun _ _ _ => rfl, fun _ _ _ => rfl, fun _ _ _ _ => rfl,
      fun _ _ _ => rfl, fun _ _ _ => rfl, fun _ _ _ => rfl⟩
  | succ n ih =>
    obtain ⟨ihW, ihS, ihD, ihDL, ihLi, ihA, ihT, ihR, ihC⟩ := ih
    refine ⟨?_, ?_, ?_, ?_, ?_, ?_, ?_, ?_, ?_⟩
    · intro pTag node after ctx idMap
      cases node with
      | text d => rfl
      | elem name attrs cs =>
        rw [walkNodeF.eq_3]
        by_cases h1 : lowerL name = uts "br"
        · rw [if_pos h1]; split <;> rfl
        rw [if_neg h1]
        by_cases h2 : lowerL name = uts "hr"
        · rw [if_pos h2]
        rw [if_neg h2]
        by_cases h3 : lowerL name = uts "div"
        · rw [if_pos h3]; exact ihD _ _ _ _
        rw [if_neg h3]
        by_cases h4 : lowerL name = uts "p"
        · rw [if_pos h4]; try dsimp only
          split <;> exact ihS _ _ _ _
        rw [if_neg h4]
        by_cases h5 : lowerL name = uts "blockquote"
        · rw [if_pos h5]; exact ihS _ _ _ _
        rw [if_neg h5]
        by_cases h6 : lowerL name = uts "pre"
        · rw [if_pos h6]
        rw [if_neg h6]
        by_cases h7 : lowerL name = uts "table"
        · rw [if_pos h7]; exact ihT _ _ _
        rw [if_neg h7]
        by_cases h8 : lowerL name = uts "ul" ∨ lowerL name = uts "ol"
        · rw [if_pos h8]; (try dsimp only); split <;> rfl
        rw [if_neg h8]
        by_cases h9 : lowerL name = uts "li"
        · rw [if_pos h9]; exact ihLi _ _ _
        rw [if_neg h9]
        by_cases h10 : lowerL name = uts "strong" ∨ lowerL name = uts "b"
        · rw [if_pos h10]; try dsimp only
          split <;> exact ihS _ _ _ _
        rw [if_neg h10]
        by_cases h11 : lowerL name = uts "em" ∨ lowerL name = uts "i"
        · rw [if_pos h11]; try dsimp only
          split <;> exact ihS _ _ _ _
        rw [if_neg h11]
        by_cases h12 : lowerL name = uts "u"
        · rw [if_pos h12]; try dsimp only
          split <;> exact ihS _ _ _ _
        rw [if_neg h12]
        by_cases h13 : lowerL name = uts "strike" ∨ lowerL name = uts "s" ∨
          lowerL name = uts "del"
        · rw [if_pos h13]; try dsimp only
          split <;> exact ihS _ _ _ _
        rw [if_neg h13]
        by_cases h14 : lowerL name = uts "span"
        · rw [if_pos h14]; (try dsimp only)
          repeat' split
          all_goals exact ihS _ _ _ _
        rw [if_neg h14]
        by_cases h15 : lowerL name = uts "a"
        · rw [if_pos h15]; exact ihA _ _ _ _
        rw [if_neg h15]
        by_cases h16 : lowerL name = uts "img"
        · rw [if_pos h16]
          repeat' split
          all_goals rfl
        rw [if_neg h16]
        by_cases h17 : lowerL name = uts "input"
        · rw [if_pos h17]; (try dsimp only)
          repeat' split
          all_goals rfl
        rw [if_neg h17]
        by_cases h18 : lowerL name = uts "checkbox"
        · rw [if_pos h18]; exact ihS _ _ _ _
        rw [if_neg h18]
        by_cases h19 : lowerL name = uts "znresource"
        · rw [if_pos h19]
        rw [if_neg h19]
        (try dsimp only)
        repeat' split
        all_goals exact ihS _ _ _ _
    · intro pTag cs ctx idMap
      simp only [walkSibs]
      exact foldl_preserve (fun s => s.2.1) _
        (sibsStep_pres (fun c a cx => ihW pTag c a cx idMap))
        (withRest cs) ([], ctx, false)
    · intro attrs cs ctx idMap
      simp only [handleDivF]
      repeat' split
      all_goals first
        | rfl
        | exact ihS _ _ _ _
        | exact ihDL _ _ _
    · intro cs ctx idMap
      simp only [divLoop]
      exact foldl_preserve (fun s => s.2.2) _
        (divStep_pres (fun c a cx => ihW (some (uts "div")) c a cx idMap))
        (withRest cs) ([], [], ctx)
    · intro cs ctx idMap
      simp only [handleListItemF]
      exact foldl_preserve (fun s => s.2.2) _
        (liStep_pres (fun c a cx => ihW (some (uts "li")) c a cx idMap)
          (fun pt cs2 cx => ihS pt cs2 cx idMap))
        (withRest cs) ([], [], ctx)
    · intro attrs cs ctx idMap
      simp only [handleLinkF]
      repeat' split
      all_goals exact ihS _ _ _ _
    · intro node ctx idMap
      simp only [handleTableF]
      split
      · exact ihR _ _ _
      · exact ihR _ _ _
    · intro trs ctx idMap
      simp only [rowsLoop]
      exact foldl_preserve (fun s => s.2) _
        (rowStep_pres (fun cs2 cx => ihC cs2 cx idMap)) trs ([], ctx)
    · intro cells ctx idMap
      simp only [cellsLoop]
      exact foldl_preserve (fun s => s.2) _
        (cellStep_pres (fun pt cs2 cx => ihS pt cs2 cx idMap)) cells ([], ctx)

/-! ### C10, C1, C9, C6 claim theorems -/

/-- C10: for every fuel budget, parent tag, node, following siblings, context
and id lookup, `walkNode` returns a context whose `listDepth` and `listType`
equal their values at the moment of the call: list containers and list items
save and restore both fields around their recursion, and no other node kind
modifies them. -/
theorem walkNode_ctx_invariant (fuel : Nat) (pTag : Option (List Nat))
    (node : CNode) (after : List CNode) (ctx : Ctx) (idMap : IdMap) :
    (walkNodeF fuel pTag node after ctx idMap).2.listDepth = ctx.listDepth ∧
    (walkNodeF fuel pTag node after ctx idMap).2.listType = ctx.listType := by
  rw [(walk_pres_all fuel).1 pTag node after ctx idMap]
  exact ⟨rfl, rfl⟩

/-- C1: the resolved-path guard of `safeCopy` does reject a source or
destination resolving outside (or onto) its base, but the symbolic-link
clause of the claim is not implemented: the only filesystem fact `safeCopy`
consults is `fs.existsSync(src)`, which follows symlinks, and no
`lstat`/symlink test exists in the source.  In the symlink scenario (a link
inside the source base, so `existsSync` reports true) the copy proceeds. -/
theorem safeCopy_no_symlink_guard :
    safeCopy (uts "/data/src") (uts "../../etc/passwd") (uts "/data/out")
      (uts "evil.md") true = false ∧
    safeCopy (uts "/data/src") (uts "a.png") (uts "/data/out")
      (uts "../escape.md") true = false ∧
    safeCopy (uts "/data/src") (uts ".") (uts "/data/out")
      (uts "x.md") true = false ∧
    safeCopy (uts "/data/src") (uts "evil-link") (uts "/data/out")
      (uts "evil.png") true = true := by
  exact ⟨by decide, by decide, by decide, by decide⟩

/-- C9: the walker enforces no maximum recursion depth: given ample fuel (a
pure modelling device that only rules out nontermination of the embedding,
decreasing on every call), a 150-level-deep `span` chain is walked all the
way down and its leaf text is emitted, rather than being cut off as a leaf
at depth 100 or any other bound — no `MAX_WALK_DEPTH` check exists in
`walkNode`/`walkChildren`. -/
theorem walkNode_no_depth_limit :
    (walkNodeF 400 none (spanNest 150) [] (Ctx.mk 0 none) []).1 = [120] := by
  decide

/-- C6: for a note whose content root has no element children and no
non-whitespace text, the converted body is the fixed video-loss warning with
the title interpolated when the lowercased title ends in a known video
extension or the note type is `note/video`, and the empty string otherwise. -/
theorem convertBody_empty_content (note : NoteData) (idMap : IdMap)
    (h1 : note.contentNode.kids.filter isElemNode = [])
    (h2 : jsTrim (getText note.contentNode) = []) :
    ((VIDEO_EXTENSIONS.any (fun e => List.isSuffixOf e (lowerL note.title)) ∨
        note.noteType = some (uts "note/video")) →
      convertBody note idMap = videoWarning note.title) ∧
    (¬ (VIDEO_EXTENSIONS.any (fun e => List.isSuffixOf e (lowerL note.title)) ∨
        note.noteType = some (uts "note/video")) →
      convertBody note idMap = []) := by
  have hcond : ((note.contentNode.kids.filter isElemNode).isEmpty ∧
      jsTrim (getText note.contentNode) = []) := by
    rw [h1, h2]; exact ⟨rfl, rfl⟩
  constructor <;> intro hv
  · show convertBody note idMap = videoWarning note.title
    simp only [convertBody]
    rw [if_pos hcond, if_pos hv]
  · simp only [convertBody]
    rw [if_pos hcond, if_neg hv]

/-- C6 witness: an empty note titled `clip.mp4` converts to exactly the
warning template. -/
theorem convertBody_empty_content_witness :
    convertBody (NoteData.mk (uts "clip.mp4") none
      (CNode.elem (uts "content") [] [])) [] = videoWarning (uts "clip.mp4") :=
  (convertBody_empty_content (NoteData.mk (uts "clip.mp4") none
    (CNode.elem (uts "content") [] [])) [] rfl (by decide)).1 (by decide)

/-! ### C7: checklist fidelity -/
theorem normSpace_eq_self {l : List Nat}
    (h : ∀ c ∈ l, c ≠ 0xa0 ∧ c ≠ 0x202f) : normSpace l = l := by
  unfold normSpace
  conv_rhs => rw [show l = l.map id from (List.map_id l).symm]
  apply List.map_congr_left
  intro c hc
  have := h c hc
  simp [this.1, this.2]

theorem foldl_acc_shift {β σ ι : Type} (step : List β × σ → ι → List β × σ)
    (hh : ∀ a s p, step (a, s) p =
      (a ++ (step ([], s) p).1, (step ([], s) p).2)) :
    ∀ (l : List ι) (a : List β) (s : σ),
      l.foldl step (a, s) =
        (a ++ (l.foldl step ([], s)).1, (l.foldl step ([], s)).2) := by
  intro l
  induction l with
  | nil => intro a s; simp
  | cons x xs ih =>
    intro a s
    rw [List.foldl_cons, List.foldl_cons, hh,
      show step ([], s) x = ((step ([], s) x).1, (step ([], s) x).2) from rfl,
      ih, ih ((step ([], s) x).1) ((step ([], s) x).2)]
    simp [List.append_assoc]

theorem sibsStep_shift (walk : CNode → List CNode → Ctx → List Nat × Ctx)
    (a : List Nat) (s : Ctx × Bool) (p : CNode × List CNode) :
    sibsStep walk (a, s) p =
      (a ++ (sibsStep walk ([], s) p).1, (sibsStep walk ([], s) p).2) := by
  simp only [sibsStep]
  split
  · simp
  · simp

theorem walkSibs_cons (g : Nat) (pTag : Option (List Nat)) (c : CNode)
    (rest : List CNode) (ctx : Ctx) (idMap : IdMap)
    (hc : isCheckboxInput c = false) :
    walkSibs (g+1) pTag (c :: rest) ctx idMap =
      ((walkNodeF g pTag c rest ctx idMap).1 ++
        (walkSibs (g+1) pTag rest
          (walkNodeF g pTag c rest ctx idMap).2 idMap).1,
       (walkSibs (g+1) pTag rest
         (walkNodeF g pTag c rest ctx idMap).2 idMap).2) := by
  have h1 : sibsStep (fun c2 aft cx => walkNodeF g pTag c2 aft cx idMap)
      ([], ctx, false) (c, rest) =
      ((walkNodeF g pTag c rest ctx idMap).1,
        (walkNodeF g pTag c rest ctx idMap).2, false) := by
    simp only [sibsStep]
    rw [if_neg (by simp)]
    simp [hc]
  simp only [walkSibs, withRest, List.foldl_cons, h1]
  rw [show ((walkNodeF g pTag c rest ctx idMap).1,
      (walkNodeF g pTag c rest ctx idMap).2, false) =
      ((walkNodeF g pTag c rest ctx idMap).1,
        ((walkNodeF g pTag c rest ctx idMap).2, false)) from rfl,
    foldl_acc_shift _ (sibsStep_shift _)]

theorem itemNode_walk (g : Nat) (it : CheckItem) (pTag : Option (List Nat))
    (after : List CNode) (ctx : Ctx) (idMap : IdMap) (h : labelOk it.label) :
    walkNodeF (g+6) pTag (itemNode it) after ctx idMap = (itemLine it, ctx) := by
  obtain ⟨hl, hne, hno⟩ := h
  have hns : normSpace it.label = it.label :=
    normSpace_eq_self (fun c hc => ⟨(hno c hc).2.1, (hno c hc).2.2⟩)
  cases it with
  | marker ch lab =>
    simp only [CheckItem.label] at hl hns
    cases ch <;>
      simp +decide only [itemNode, itemLine, CheckItem.checked, CheckItem.label,
        markerPrefix, walkNodeF, handleDivF, walkSibs, sibsStep, withRest,
        List.foldl_cons, List.foldl_nil, checkboxLabel, getTextList, getText,
        List.append_nil, List.nil_append, meaningful, isCheckboxNode,
        isSpanTag, isCheckboxInput, isEmptyBoldSpacer, List.filter_cons,
        List.filter_nil, List.any, List.isEmpty, List.lookup, Option.getD,
        Option.isSome, containsSub, reduceIte, decide_False, decide_True,
        Bool.false_and, Bool.true_and, hl, hns]
  | selfc ch lab =>
    simp only [CheckItem.label] at hl hns
    cases ch <;>
      simp +decide only [itemNode, itemLine, CheckItem.checked, CheckItem.label,
        markerPrefix, walkNodeF, handleDivF, walkSibs, sibsStep, withRest,
        List.foldl_cons, List.foldl_nil, checkboxLabel, getTextList, getText,
        List.append_nil, List.nil_append, meaningful, isCheckboxNode,
        isSpanTag, isCheckboxInput, isEmptyBoldSpacer, List.filter_cons,
        List.filter_nil, List.any, List.isEmpty, List.lookup, Option.getD,
        Option.isSome, containsSub, reduceIte, decide_False, decide_True,
        Bool.false_and, Bool.true_and, hl, hns]

theorem checklist_sibs : ∀ (its : List CheckItem) (g : Nat)
    (pTag : Option (List Nat)) (ctx : Ctx) (idMap : IdMap),
    (∀ it ∈ its, labelOk it.label) →
    walkSibs (g+7) pTag (its.map itemNode) ctx idMap =
      ((its.map itemLine).flatten, ctx) := by
  intro its
  induction its with
  | nil => intro g pTag ctx idMap h; rfl
  | cons it rest ih =>
    intro g pTag ctx idMap h
    have hc : isCheckboxInput (itemNode it) = false := by cases it <;> rfl
    rw [show g+7 = (g+6)+1 from rfl, List.map_cons,
      walkSibs_cons (g+6) pTag (itemNode it) (rest.map itemNode) ctx idMap hc,
      itemNode_walk g it pTag _ ctx idMap (h it (List.mem_cons_self it rest)),
      show (g+6)+1 = g+7 from rfl,
      ih g pTag ctx idMap (fun x hx => h x (List.mem_cons_of_mem it hx))]
    simp



theorem collapseNLGo_cons_ne {c : Nat} (hc : c ≠ 10) (n : Nat) (X : List Nat) :
    collapseNLGo n (c :: X) = c :: collapseNLGo 0 X := by
  simp only [collapseNLGo, hc]

theorem collapseNLGo_body : ∀ (b : List Nat), (∀ c ∈ b, c ≠ 10) → b ≠ [] →
    ∀ (n : Nat) (rest : List Nat),
      collapseNLGo n (b ++ 10 :: rest) = b ++ 10 :: collapseNLGo 1 rest := by
  intro b
  induction b with
  | nil => intro _ hne; cases hne rfl
  | cons c b2 ih =>
    intro hb _ n rest
    have hc : c ≠ 10 := hb c (List.mem_cons_self c b2)
    rw [List.cons_append, collapseNLGo_cons_ne hc]
    cases b2 with
    | nil =>
      simp only [List.nil_append, collapseNLGo, if_pos (by decide : (0:Nat) < 2)]
      rfl
    | cons d b3 =>
      rw [ih (fun x hx => hb x (List.mem_cons_of_mem c hx))
        (by simp) 0 rest]
      rfl

theorem collapseNL_flat : ∀ (L : List (List Nat)),
    (∀ b ∈ L, b ≠ [] ∧ ∀ c ∈ b, c ≠ 10) → ∀ n : Nat,
    collapseNLGo n ((L.map (fun b => b ++ [10])).flatten) =
      (L.map (fun b => b ++ [10])).flatten := by
  intro L
  induction L with
  | nil => intro _ _; rfl
  | cons b L2 ih =>
    intro h n
    have hb := h b (List.mem_cons_self b L2)
    simp only [List.map_cons, List.flatten_cons, List.append_assoc,
      List.singleton_append]
    rw [collapseNLGo_body b hb.2 hb.1 n,
      ih (fun x hx => h x (List.mem_cons_of_mem b hx)) 1]

theorem splitNL_body : ∀ (b : List Nat), (∀ c ∈ b, c ≠ 10) →
    ∀ (rest : List Nat), splitNL (b ++ 10 :: rest) = b :: splitNL rest := by
  intro b
  induction b with
  | nil =>
    intro _ rest
    simp only [List.nil_append, splitNL, reduceIte]
  | cons c b2 ih =>
    intro hb rest
    have hc : c ≠ 10 := hb c (List.mem_cons_self c b2)
    rw [List.cons_append]
    simp only [splitNL, hc, reduceIte,
      ih (fun x hx => hb x (List.mem_cons_of_mem c hx)) rest]

theorem splitNL_flat : ∀ (L : List (List Nat)),
    (∀ b ∈ L, ∀ c ∈ b, c ≠ 10) →
    splitNL ((L.map (fun b => b ++ [10])).flatten) = L ++ [[]] := by
  intro L
  induction L with
  | nil => intro _; rfl
  | cons b L2 ih =>
    intro h
    simp only [List.map_cons, List.flatten_cons, List.append_assoc,
      List.singleton_append]
    rw [splitNL_body b (h b (List.mem_cons_self b L2)),
      ih (fun x hx => h x (List.mem_cons_of_mem b hx))]
    rfl

theorem jsTrimEnd_concat_newline {B : List Nat} {c : Nat}
    (hc : B.getLast? = some c) (hw : jsWhiteB c = false) :
    jsTrimEnd (B ++ [10]) = B := by
  unfold jsTrimEnd
  rw [List.reverse_append]
  simp only [List.reverse_cons, List.reverse_nil, List.nil_append,
    List.singleton_append]
  rw [List.dropWhile_cons_of_pos (by decide)]
  cases hrev : B.reverse with
  | nil =>
    have : B = [] := by simpa using congrArg List.reverse hrev
    rw [this] at hc
    cases hc
  | cons a as =>
    have ha : a = c := by
      have := List.head?_reverse B
      rw [hrev] at this
      simp only [List.head?_cons] at this
      rw [hc] at this
      exact Option.some.inj this
    rw [List.dropWhile_cons_of_neg (by rw [ha]; simp [hw])]
    rw [← hrev, List.reverse_reverse]



theorem markerPrefix_ne_nil : ∀ b : Bool, markerPrefix b ≠ [] := by decide

theorem markerPrefix_no_lf : ∀ b : Bool, ∀ c ∈ markerPrefix b, c ≠ 10 := by
  decide


theorem cardSpecial_itemNode (it0 : CheckItem) (rest : List CheckItem) :
    cardSpecial ((it0 :: rest).map itemNode) none = none := by
  cases rest <;> cases it0 <;> rfl

/-- C7 (amended): for every sequence of checkbox items — in either source
shape, marker `input[type=checkbox]` followed by a `span` label or
self-contained `checkbox` element, with independently set checked states —
whose label texts are trim-fixed, non-empty and free of LF and the two
folded space characters, the converted body is exactly the concatenation of
the items' checklist lines, and its marker-prefixed lines are exactly the
items' lines in original document order with matching checked states (an
item with no checked attribute renders unchecked, and a consumed label is
emitted exactly once).  The original claim's converse direction — that
every marker line comes from a checkbox item — is refuted by
`checklist_text_spoof_counterexample`. -/
theorem convertBody_checklist (its : List CheckItem) (idMap : IdMap)
    (h : ∀ it ∈ its, labelOk it.label) :
    convertBody (checklistNote its) idMap = (its.map itemLine).flatten ∧
    markerLines (convertBody (checklistNote its) idMap) =
      its.map (fun it => markerPrefix it.checked ++ it.label) := by
  have hbody : ∀ it ∈ its, (markerPrefix it.checked ++ it.label ≠ [] ∧
      ∀ c ∈ markerPrefix it.checked ++ it.label, c ≠ 10) := by
    intro it hit
    obtain ⟨hl, hne, hno⟩ := h it hit
    constructor
    · simp [List.append_eq_nil, markerPrefix_ne_nil it.checked]
    · intro c hc
      rcases List.mem_append.mp hc with hc | hc
      · exact markerPrefix_no_lf it.checked c hc
      · exact (hno c hc).1
  have hmapline : its.map itemLine =
      (its.map (fun it => markerPrefix it.checked ++ it.label)).map
        (fun b => b ++ [10]) := by
    rw [List.map_map]
    apply List.map_congr_left
    intro it _
    simp [itemLine, List.append_assoc]
  have hB : ∀ b ∈ its.map (fun it => markerPrefix it.checked ++ it.label),
      b ≠ [] ∧ ∀ c ∈ b, c ≠ 10 := by
    intro b hb
    obtain ⟨x, hx, rfl⟩ := List.mem_map.mp hb
    exact hbody x hx
  have hflat : collapseNL (((its.map
        (fun it => markerPrefix it.checked ++ it.label)).map
          (fun b => b ++ [10])).flatten) =
      ((its.map (fun it => markerPrefix it.checked ++ it.label)).map
        (fun b => b ++ [10])).flatten :=
    collapseNL_flat _ hB 0
  have hmark : markerLines (((its.map
        (fun it => markerPrefix it.checked ++ it.label)).map
          (fun b => b ++ [10])).flatten) =
      its.map (fun it => markerPrefix it.checked ++ it.label) := by
    unfold markerLines
    rw [splitNL_flat _ (fun b hb => (hB b hb).2), List.filter_append]
    have h1 : List.filter (fun ln =>
        List.isPrefixOf (uts "- [ ]") ln || List.isPrefixOf (uts "- [x]") ln)
        (its.map (fun it => markerPrefix it.checked ++ it.label)) =
        its.map (fun it => markerPrefix it.checked ++ it.label) := by
      apply List.filter_eq_self.mpr
      intro b hb
      obtain ⟨x, hx, rfl⟩ := List.mem_map.mp hb
      cases hchk : x.checked <;> rfl
    have h2 : List.filter (fun ln =>
        List.isPrefixOf (uts "- [ ]") ln || List.isPrefixOf (uts "- [x]") ln)
        [[]] = ([] : List (List Nat)) := rfl
    rw [h1, h2, List.append_nil]
  cases its with
  | nil => exact ⟨rfl, rfl⟩
  | cons it0 rest =>
    have hfilter : List.filter isElemNode (List.map itemNode (it0 :: rest)) =
        List.map itemNode (it0 :: rest) :=
      List.filter_eq_self.mpr (by
        intro a ha
        obtain ⟨x, _, rfl⟩ := List.mem_map.mp ha
        cases x <;> rfl)
    have harith : ∀ m : Nat, 3 * m + 9 = (3 * m + 2) + 7 := fun m => rfl
    have hsibs := checklist_sibs (it0 :: rest)
      (3 * cnSize (CNode.elem (uts "content") []
        (List.map itemNode (it0 :: rest))) + 2)
      (some (lowerL (uts "content"))) (Ctx.mk 0 none) idMap h
    have hpart1 : convertBody (checklistNote (it0 :: rest)) idMap =
        ((it0 :: rest).map itemLine).flatten := by
      simp only [convertBody, checklistNote, CNode.kids, CNode.tagL, hfilter]
      rw [if_neg (by simp)]
      rw [cardSpecial_itemNode it0 rest]
      simp only []
      rw [harith, hsibs]
      simp only []
      rw [hmapline, hflat]
      -- trailing-trim step
      rcases List.eq_nil_or_concat
        ((it0 :: rest).map (fun it => markerPrefix it.checked ++ it.label))
        with hB0 | ⟨B0, bl, hB0⟩
      · simp at hB0
      · rw [hB0, List.concat_eq_append, List.map_append, List.flatten_append]
        simp only [List.map_cons, List.map_nil, List.flatten_cons,
          List.flatten_nil, List.append_nil]
        rw [← List.append_assoc]
        have hblmem : bl ∈ (it0 :: rest).map
            (fun it => markerPrefix it.checked ++ it.label) := by
          rw [hB0, List.concat_eq_append]
          exact List.mem_append.mpr (Or.inr (by simp))
        obtain ⟨x, hx, hblx⟩ := List.mem_map.mp hblmem
        obtain ⟨hl, hne, hno⟩ := h x hx
        cases hlast : x.label.getLast? with
        | none => exact absurd (List.getLast?_eq_none_iff.mp hlast) hne
        | some c =>
          have hw : jsWhiteB c = false :=
            getLast?_jsTrim (l := x.label) (by rw [hl]; exact hlast)
          have hblast : ((B0.map (fun b => b ++ [10])).flatten ++ bl).getLast?
              = some c := by
            rw [List.getLast?_append, ← hblx, List.getLast?_append, hlast]
            rfl
          rw [jsTrimEnd_concat_newline hblast hw]
    refine ⟨hpart1, ?_⟩
    rw [hpart1, hmapline, hmark]

/-! ### C7 witness and counterexample; C8: table rendering -/
/-- C7 witness: a two-item checklist (checked marker shape, unchecked
self-contained shape) renders both lines with matching states. -/
theorem convertBody_checklist_witness :
    (∀ it ∈ [CheckItem.marker true (uts "alpha"),
        CheckItem.selfc false (uts "delta")], labelOk it.label) ∧
    (convertBody (checklistNote [CheckItem.marker true (uts "alpha"),
        CheckItem.selfc false (uts "delta")]) [] =
      (([CheckItem.marker true (uts "alpha"),
        CheckItem.selfc false (uts "delta")]).map itemLine).flatten ∧
     markerLines (convertBody (checklistNote [CheckItem.marker true (uts "alpha"),
        CheckItem.selfc false (uts "delta")]) []) =
      ([CheckItem.marker true (uts "alpha"),
        CheckItem.selfc false (uts "delta")]).map
          (fun it => markerPrefix it.checked ++ it.label)) :=
  ⟨by decide, convertBody_checklist _ [] (by decide)⟩

/-- C7 counterexample to the original claim: a content tree containing zero
checkbox items whose text node already reads like a checklist line produces
one marker-prefixed line, so the body does not contain exactly N marker
lines for N checkbox items. -/
theorem checklist_text_spoof_counterexample :
    countCheckbox spoofNote.contentNode = 0 ∧
    (markerLines (convertBody spoofNote [])).length = 1 := by
  exact ⟨rfl, by decide⟩

theorem rowStep_shift (cells : List CNode → Ctx → List (List Nat) × Ctx)
    (a : List (List (List Nat))) (s : Ctx) (tr : CNode) :
    rowStep cells (a, s) tr =
      (a ++ (rowStep cells ([], s) tr).1, (rowStep cells ([], s) tr).2) := by
  simp [rowStep]

theorem cellStep_shift (walkS : Option (List Nat) → List CNode → Ctx → List Nat × Ctx)
    (a : List (List Nat)) (s : Ctx) (cell : CNode) :
    cellStep walkS (a, s) cell =
      (a ++ (cellStep walkS ([], s) cell).1, (cellStep walkS ([], s) cell).2) := by
  simp [cellStep]

theorem rowsLoop_cons (g : Nat) (tr : CNode) (trs : List CNode) (ctx : Ctx)
    (idMap : IdMap) :
    rowsLoop (g+1) (tr :: trs) ctx idMap =
      ((cellsLoop g (cellsOf tr) ctx idMap).1 ::
        (rowsLoop (g+1) trs (cellsLoop g (cellsOf tr) ctx idMap).2 idMap).1,
       (rowsLoop (g+1) trs (cellsLoop g (cellsOf tr) ctx idMap).2 idMap).2) := by
  have h1 : rowStep (fun cells cx => cellsLoop g cells cx idMap) ([], ctx) tr =
      ([(cellsLoop g (cellsOf tr) ctx idMap).1],
        (cellsLoop g (cellsOf tr) ctx idMap).2) := by
    simp [rowStep]
  simp only [rowsLoop, List.foldl_cons, h1]
  rw [show ([(cellsLoop g (cellsOf tr) ctx idMap).1],
      (cellsLoop g (cellsOf tr) ctx idMap).2) =
      (([(cellsLoop g (cellsOf tr) ctx idMap).1] : List (List (List Nat))),
        ((cellsLoop g (cellsOf tr) ctx idMap).2 : Ctx)) from rfl,
    foldl_acc_shift _ (rowStep_shift _)]
  simp

theorem cellsLoop_cons (g : Nat) (cell : CNode) (cells : List CNode) (ctx : Ctx)
    (idMap : IdMap) :
    cellsLoop (g+1) (cell :: cells) ctx idMap =
      (escPipes (jsTrim (walkSibs g cell.tagL cell.kids ctx idMap).1) ::
        (cellsLoop (g+1) cells (walkSibs g cell.tagL cell.kids ctx idMap).2 idMap).1,
       (cellsLoop (g+1) cells (walkSibs g cell.tagL cell.kids ctx idMap).2 idMap).2) := by
  have h1 : cellStep (fun pt ccs cx => walkSibs g pt ccs cx idMap) ([], ctx) cell =
      ([escPipes (jsTrim (walkSibs g cell.tagL cell.kids ctx idMap).1)],
        (walkSibs g cell.tagL cell.kids ctx idMap).2) := by
    simp [cellStep]
  simp only [cellsLoop, List.foldl_cons, h1]
  rw [show ([escPipes (jsTrim (walkSibs g cell.tagL cell.kids ctx idMap).1)],
      (walkSibs g cell.tagL cell.kids ctx idMap).2) =
      (([escPipes (jsTrim (walkSibs g cell.tagL cell.kids ctx idMap).1)] :
          List (List Nat)),
        ((walkSibs g cell.tagL cell.kids ctx idMap).2 : Ctx)) from rfl,
    foldl_acc_shift _ (cellStep_shift _)]
  simp

theorem cell_sibs (g : Nat) (pt : Option (List Nat)) (t : List Nat) (ctx : Ctx)
    (idMap : IdMap) :
    walkSibs (g+2) pt [CNode.text t] ctx idMap = (normSpace t, ctx) := by
  simp only [walkSibs, withRest, List.foldl_cons, List.foldl_nil, sibsStep]
  rw [if_neg (by simp)]
  rw [show (g+1 : Nat) = Nat.succ g from rfl, walkNodeF.eq_2]
  simp [isCheckboxInput]



theorem cellsOf_mkRow (r : List (List Nat)) :
    cellsOf (mkRow r) = r.map mkCell := by
  simp only [cellsOf, mkRow, CNode.kids]
  apply List.filter_eq_self.mpr
  intro a ha
  obtain ⟨t, _, rfl⟩ := List.mem_map.mp ha
  rfl

theorem rowCells (g : Nat) (r : List (List Nat)) :
    ∀ (ctx : Ctx) (idMap : IdMap), (∀ t ∈ r, cellOk t) →
    cellsLoop (g+3) (r.map mkCell) ctx idMap = (r.map escPipes, ctx) := by
  induction r with
  | nil => intro ctx idMap _; rfl
  | cons t r2 ih =>
    intro ctx idMap h
    obtain ⟨ht, hno⟩ := h t (List.mem_cons_self t r2)
    have hns : normSpace t = t :=
      normSpace_eq_self (fun c hc => ⟨(hno c hc).2.1, (hno c hc).2.2⟩)
    rw [List.map_cons, show (g+3 : Nat) = (g+2)+1 from rfl,
      cellsLoop_cons (g+2) (mkCell t) (r2.map mkCell) ctx idMap]
    simp only [mkCell, CNode.tagL, CNode.kids]
    rw [cell_sibs g (some (lowerL (uts "td"))) t ctx idMap]
    simp only [hns, ht]
    rw [show (g+2)+1 = (g+3 : Nat) from rfl,
      ih ctx idMap (fun x hx => h x (List.mem_cons_of_mem t hx))]
    simp

theorem findByTagList_cells (r : List (List Nat)) :
    findByTagList (r.map mkCell) (uts "tr") = [] := by
  induction r with
  | nil => rfl
  | cons t r2 ih =>
    simp only [List.map_cons, findByTagList, findByTag, mkCell]
    rw [if_neg (by decide)]
    simpa using ih

theorem findByTag_mkTable (rs : List (List (List Nat))) :
    findByTag (mkTable rs) (uts "tr") = rs.map mkRow := by
  simp only [mkTable, findByTag]
  rw [if_neg (by decide)]
  simp only [List.nil_append]
  induction rs with
  | nil => rfl
  | cons r rs2 ih =>
    simp only [List.map_cons, findByTagList, findByTag, mkRow]
    rw [if_pos (by decide)]
    rw [show findByTagList (List.map mkCell r) (uts "tr") = [] from
      findByTagList_cells r]
    simp only [List.append_nil, List.singleton_append]
    rw [ih]

theorem rowsAll (g : Nat) (rs : List (List (List Nat))) :
    ∀ (ctx : Ctx) (idMap : IdMap), (∀ r ∈ rs, ∀ t ∈ r, cellOk t) →
    rowsLoop (g+4) (rs.map mkRow) ctx idMap =
      (rs.map (fun r => r.map escPipes), ctx) := by
  induction rs with
  | nil => intro ctx idMap _; rfl
  | cons r rs2 ih =>
    intro ctx idMap h
    rw [List.map_cons, show (g+4 : Nat) = (g+3)+1 from rfl,
      rowsLoop_cons (g+3) (mkRow r) (rs2.map mkRow) ctx idMap,
      cellsOf_mkRow r,
      rowCells g r ctx idMap (h r (List.mem_cons_self r rs2))]
    simp only []
    rw [show (g+3)+1 = (g+4 : Nat) from rfl,
      ih ctx idMap (fun x hx => h x (List.mem_cons_of_mem r hx))]
    simp

theorem maxCols_map (rs : List (List (List Nat))) : ∀ (acc : Nat),
    (rs.map (fun r => r.map escPipes)).foldl (fun m r => max m r.length) acc =
      rs.foldl (fun m r => max m r.length) acc := by
  induction rs with
  | nil => intro acc; rfl
  | cons r rs2 ih =>
    intro acc
    simp only [List.map_cons, List.foldl_cons, List.length_map]
    exact ih _



theorem renderRow_spec (cc : Nat) (r : List (List Nat)) :
    renderRow cc (r.map escPipes) = specRowLine cc r := rfl

/-- C8 (amended): for every table whose row elements are direct children
and whose cells are direct `td` children holding a single text node with
trim-fixed text free of LF and folded spaces, the rendered Markdown takes
each row's cells in document order, pads every row to the maximum column
count over all rows, escapes literal pipes in cell text, and emits exactly
one header-separator row immediately after the first row.  The original
claim's nested-table clause — that an inner table's rows never appear as
rows of the outer table — is refuted by
`handleTable_nested_counterexample`, since `findByTag` searches the whole
subtree. -/
theorem handleTable_direct_rows (g : Nat) (rs : List (List (List Nat)))
    (ctx : Ctx) (idMap : IdMap) (h : ∀ r ∈ rs, ∀ t ∈ r, cellOk t) :
    handleTableF (g+5) (mkTable rs) ctx idMap = (expectedTable rs, ctx) := by
  simp only [handleTableF]
  rw [findByTag_mkTable, rowsAll g rs ctx idMap h]
  cases rs with
  | nil => simp [expectedTable]
  | cons r0 rest =>
    simp only []
    rw [if_neg (by simp)]
    rw [maxCols_map (r0 :: rest) 0]
    simp only [expectedTable, maxCols, List.map_cons, renderRows,
      renderRow_spec]
    rw [show sepRowOf (List.foldl (fun m r => max m r.length) 0
        (r0 :: rest)) = specSepLine (List.foldl (fun m r => max m r.length) 0
        (r0 :: rest)) from rfl]
    rw [List.map_map]
    have hcomp : List.map ((renderRow (List.foldl (fun m r => max m r.length) 0
        (r0 :: rest))) ∘ fun r => List.map escPipes r) rest =
        List.map (specRowLine (List.foldl (fun m r => max m r.length) 0
          (r0 :: rest))) rest :=
      List.map_congr_left (fun x _ => rfl)
    rw [hcomp]

/-- C8 witness: a ragged two-row table with a pipe in a cell renders
padded, pipe-escaped, with a single separator row. -/
theorem handleTable_direct_rows_witness :
    (∀ r ∈ [[uts "a", uts "b|c"], [uts "d"]], ∀ t ∈ r, cellOk t) ∧
    handleTableF 5 (mkTable [[uts "a", uts "b|c"], [uts "d"]]) (Ctx.mk 0 none)
        [] =
      (expectedTable [[uts "a", uts "b|c"], [uts "d"]], Ctx.mk 0 none) :=
  ⟨by decide, handleTable_direct_rows 0 _ _ [] (by decide)⟩

/-- C8 counterexample to the original claim: the outer table has one direct
row element, but `findByTag` finds the nested table's row too, and the
inner cell text surfaces as a row of the outer rendered table. -/
theorem handleTable_nested_counterexample :
    (outerTable.kids.filter (fun c => c.tagL = some (uts "tr"))).length = 1 ∧
    (findByTag outerTable (uts "tr")).length = 2 ∧
    containsSub (handleTableF 50 outerTable (Ctx.mk 0 none) []).1
      (uts "| I |  |") = true := by
  refine ⟨by decide, by decide, by decide⟩

end Zoho
